import Mathlib

/-!
Verification development for the three-stage financial-analysis chain in
src/streamlitapp.py.  The embedding models:

* the JSON fragment exercised by the chain: `json.loads` (called at line 179)
  and `json.dumps(..., indent=2)` (same line).  JSON numbers are modelled as
  integers; float literals, the constants NaN and Infinity, and the \uXXXX
  string escape are outside the modelled fragment (the parser rejects them,
  the printer never emits them).  Strings are modelled over Unicode scalar
  values; the printer passes characters at or above 0x20 through unescaped
  (Python with ensure_ascii=True would \u-escape non-ASCII characters, a
  difference of surface text only, not of parsed field values).
* the Stage-2 marker extraction (lines 199-200): the regex
  (<Chain_of_Thought>[\s\S]*<\/Intermediate_Analysis>) searched over the raw
  Stage-2 output.  Because [\s\S]* is greedy, a match runs from the first
  occurrence of the open marker to the last occurrence of the close marker
  that starts at or after the end of the open marker.
* the chain orchestrator `run_financial_analysis_chain` (lines 157-215), with
  the stage executor `run_gemini_stage` (lines 129-151) abstracted as an
  oracle supplying each model call outcome: either a raised provider error or
  a response whose text may be absent.  The embedded chain also returns the
  ordered list of stage invocations together with the prompt each invocation
  received, so that short-circuiting and prompt-content properties can be
  stated.  UI side effects (st.spinner, st.error, st.code, time.sleep) have
  no data flow into the returned value and are not modelled.
-/

namespace FinChain

/-! ## Characters and digits -/

/-- Whitespace characters skipped by the Python json scanner: space, tab,
newline, carriage return. -/
def isJsonWs (c : Char) : Bool :=
  c = ' ' || c = '\t' || c = '\n' || c = '\r'

/-- Decimal digit test. -/
def isDig (c : Char) : Bool :=
  48 ≤ c.toNat && c.toNat ≤ 57

/-- Numeric value of a decimal digit character. -/
def dval (c : Char) : Nat := c.toNat - 48

/-- Decimal digit character for a value below ten. -/
def dchr (n : Nat) : Char := Char.ofNat (48 + n)

/-- The opening curly bracket character. -/
def lbrace : Char := '\x7b'

/-- The closing curly bracket character. -/
def rbrace : Char := '\x7d'

/-- Decimal digit characters of `n`, most significant first, prepended to
`acc`; `fuel` is structural recursion fuel (any `fuel` with `n < 10 ^ fuel`
is enough). -/
def natDigs : Nat → Nat → List Char → List Char
  | 0, _, acc => acc
  | f + 1, n, acc => if n < 10 then dchr n :: acc else natDigs f (n / 10) (dchr (n % 10) :: acc)

/-- Decimal digit characters of a natural number, as Python `str` prints it. -/
def natChars (n : Nat) : List Char := natDigs (n + 1) n []

/-- Characters of an integer as Python `str` prints it: an optional minus
sign followed by the decimal digits of the absolute value. -/
def intChars (i : Int) : List Char :=
  if i < 0 then '-' :: natChars i.natAbs else natChars i.natAbs

/-! ## The JSON value model -/

/-- A JSON value of the modelled fragment.  Numbers are integers (float
literals are outside the fragment); object members are kept in insertion
order, as a Python dict does. -/
inductive Json where
  | null
  | bool (b : Bool)
  | num (i : Int)
  | str (s : List Char)
  | arr (xs : List Json)
  | obj (kvs : List (List Char × Json))

/-! ## Printing: the model of json.dumps(value, indent=2) -/

/-- Spaces used for one indentation prefix. -/
def indentChars (n : Nat) : List Char := List.replicate n ' '

/-- Escape one character of a JSON string the way the json encoder does:
backslash, double quote and the five short control escapes become two-character
escapes; everything else is passed through.  Control characters other than
backspace, form feed, newline, carriage return and tab are outside the
modelled fragment (Python would \u-escape them). -/
def escChar (c : Char) : List Char :=
  if c = '\\' then ['\\', '\\']
  else if c = '"' then ['\\', '"']
  else if c = '\x08' then ['\\', 'b']
  else if c = '\x0C' then ['\\', 'f']
  else if c = '\n' then ['\\', 'n']
  else if c = '\r' then ['\\', 'r']
  else if c = '\t' then ['\\', 't']
  else [c]

/-- Escaped body of a JSON string. -/
def escBody (s : List Char) : List Char := s.flatMap escChar

/-- A JSON string token: quote, escaped body, quote. -/
def quoteStr (s : List Char) : List Char := '"' :: (escBody s ++ ['"'])

mutual
/-- Characters of `json.dumps(v, indent=2)` when the value starts at an
indentation of `ind` spaces: scalars are their tokens; a non-empty array or
object opens its bracket, lays out each element on its own line indented by
`ind + 2` spaces, and closes the bracket on a fresh line indented by `ind`
spaces; empty containers print with no inner whitespace. -/
def dumpJ : Nat → Json → List Char
  | _, .null => ['n', 'u', 'l', 'l']
  | _, .bool true => ['t', 'r', 'u', 'e']
  | _, .bool false => ['f', 'a', 'l', 's', 'e']
  | _, .num i => intChars i
  | _, .str s => quoteStr s
  | _, .arr [] => ['[', ']']
  | ind, .arr (x :: xs) =>
      '[' :: '\n' :: (indentChars (ind + 2) ++ (dumpArrBody (ind + 2) (x :: xs)
        ++ '\n' :: (indentChars ind ++ [']'])))
  | _, .obj [] => [lbrace, rbrace]
  | ind, .obj (kv :: kvs) =>
      lbrace :: '\n' :: (indentChars (ind + 2) ++ (dumpObjBody (ind + 2) (kv :: kvs)
        ++ '\n' :: (indentChars ind ++ [rbrace])))
/-- Body of a non-empty array: the items at indentation `ind`, separated by a
comma, a newline and the indentation prefix (the leading newline and prefix of
the first item are emitted by `dumpJ`). -/
def dumpArrBody : Nat → List Json → List Char
  | _, [] => []
  | ind, [x] => dumpJ ind x
  | ind, x :: y :: ys =>
      dumpJ ind x ++ ',' :: '\n' :: (indentChars ind ++ dumpArrBody ind (y :: ys))
/-- Body of a non-empty object: `"key": value` members at indentation `ind`,
separated like array items. -/
def dumpObjBody : Nat → List (List Char × Json) → List Char
  | _, [] => []
  | ind, [(k, v)] => quoteStr k ++ ':' :: ' ' :: dumpJ ind v
  | ind, (k, v) :: kv2 :: kvs =>
      quoteStr k ++ ':' :: ' ' :: dumpJ ind v
        ++ ',' :: '\n' :: (indentChars ind ++ dumpObjBody ind (kv2 :: kvs))
end

/-- The model of `json.dumps(v, indent=2)` as used at line 179. -/
def json_dumps_indent2 (v : Json) : String := ⟨dumpJ 0 v⟩

/-! ## Parsing: the model of json.loads -/

/-- Drop leading JSON whitespace. -/
def skipWs : List Char → List Char
  | [] => []
  | c :: cs => if isJsonWs c then skipWs cs else c :: cs

/-- Decode a two-character escape: the eight escapes of the json grammar other
than \uXXXX (which is outside the modelled fragment). -/
def unesc (c : Char) : Option Char :=
  if c = '"' then some '"'
  else if c = '\\' then some '\\'
  else if c = '/' then some '/'
  else if c = 'b' then some '\x08'
  else if c = 'f' then some '\x0C'
  else if c = 'n' then some '\n'
  else if c = 'r' then some '\r'
  else if c = 't' then some '\t'
  else none

/-- Scan a JSON string body after its opening quote, as the strict json
scanner does: a raw control character below 0x20 is an error, a backslash
must begin a recognised escape, and the scan ends at the closing quote. -/
def scanStr : List Char → Option (List Char × List Char)
  | [] => none
  | c :: cs =>
    if c = '"' then some ([], cs)
    else if c = '\\' then
      match cs with
      | [] => none
      | e :: cs2 =>
        match unesc e with
        | none => none
        | some d =>
          match scanStr cs2 with
          | none => none
          | some (s, r) => some (d :: s, r)
    else if c.toNat < 32 then none
    else
      match scanStr cs with
      | none => none
      | some (s, r) => some (c :: s, r)

/-- Value of a run of decimal digit characters. -/
def numFold (ds : List Char) : Nat := ds.foldl (fun a c => a * 10 + dval c) 0

/-- Whether the remaining input would extend a digit run into a float literal
(fraction or exponent), which is outside the modelled fragment. -/
def floatStart : List Char → Bool
  | [] => false
  | c :: _ => c = '.' || c = 'e' || c = 'E'

/-- Scan an unsigned JSON integer, following the json number grammar
`0 | [1-9][0-9]*`: a leading zero consumes only itself (a following digit is
left for the surrounding structure to reject, as Python does), and an input
continuing into a float literal is outside the modelled fragment. -/
def scanUInt (cs : List Char) : Option (Nat × List Char) :=
  match cs with
  | [] => none
  | c :: cs1 =>
    if c = '0' then
      if floatStart cs1 then none else some (0, cs1)
    else if isDig c then
      let ds := cs1.takeWhile isDig
      let r := cs1.dropWhile isDig
      if floatStart r then none else some (numFold (c :: ds), r)
    else none

/-- Scan a JSON integer: an optional minus sign followed by an unsigned
integer. -/
def scanInt (cs : List Char) : Option (Int × List Char) :=
  match cs with
  | [] => none
  | c :: cs1 =>
    if c = '-' then (scanUInt cs1).map (fun p => (-(p.1 : Int), p.2))
    else (scanUInt cs).map (fun p => ((p.1 : Int), p.2))

/-- Insert a key-value pair into an object the way a Python dict assignment
does: an existing key keeps its position and gets the new value, a fresh key
is appended. -/
def dictInsert (kvs : List (List Char × Json)) (k : List Char) (v : Json) :
    List (List Char × Json) :=
  match kvs with
  | [] => [(k, v)]
  | (k0, v0) :: t => if k0 = k then (k0, v) :: t else (k0, v0) :: dictInsert t k v

/-- Build an object from scanned members in order, with dict assignment
semantics for duplicate keys. -/
def buildObj (ps : List (List Char × Json)) : List (List Char × Json) :=
  ps.foldl (fun d kv => dictInsert d kv.1 kv.2) []

mutual
/-- Parse one JSON value (fuel-structural recursive descent following the
json scanner): skip whitespace, then dispatch on the first character. -/
def parseVal : Nat → List Char → Option (Json × List Char)
  | 0, _ => none
  | f + 1, cs =>
    match skipWs cs with
    | [] => none
    | c :: r =>
      if c = 'n' then
        match r with
        | 'u' :: 'l' :: 'l' :: r2 => some (.null, r2)
        | _ => none
      else if c = 't' then
        match r with
        | 'r' :: 'u' :: 'e' :: r2 => some (.bool true, r2)
        | _ => none
      else if c = 'f' then
        match r with
        | 'a' :: 'l' :: 's' :: 'e' :: r2 => some (.bool false, r2)
        | _ => none
      else if c = '"' then
        (scanStr r).map (fun p => (.str p.1, p.2))
      else if c = '[' then
        match skipWs r with
        | [] => none
        | c2 :: r2 =>
          if c2 = ']' then some (.arr [], r2)
          else (parseItems f (c2 :: r2)).map (fun p => (.arr p.1, p.2))
      else if c = lbrace then
        match skipWs r with
        | [] => none
        | c2 :: r2 =>
          if c2 = rbrace then some (.obj [], r2)
          else (parsePairs f (c2 :: r2)).map (fun p => (.obj (buildObj p.1), p.2))
      else if c = '-' || isDig c then
        (scanInt (c :: r)).map (fun p => (.num p.1, p.2))
      else none
/-- Parse the non-empty item list of an array, up to and including the
closing square bracket. -/
def parseItems : Nat → List Char → Option (List Json × List Char)
  | 0, _ => none
  | f + 1, cs =>
    match parseVal f cs with
    | none => none
    | some (v, r) =>
      match skipWs r with
      | [] => none
      | c :: r2 =>
        if c = ',' then (parseItems f r2).map (fun p => (v :: p.1, p.2))
        else if c = ']' then some ([v], r2)
        else none
/-- Parse the non-empty member list of an object, up to and including the
closing curly bracket, returning the members in source order (duplicates
included; `parseVal` folds them through `buildObj`). -/
def parsePairs : Nat → List Char → Option (List (List Char × Json) × List Char)
  | 0, _ => none
  | f + 1, cs =>
    match skipWs cs with
    | [] => none
    | c :: r =>
      if c = '"' then
        match scanStr r with
        | none => none
        | some (k, r1) =>
          match skipWs r1 with
          | [] => none
          | c2 :: r2 =>
            if c2 = ':' then
              match parseVal f r2 with
              | none => none
              | some (v, r3) =>
                match skipWs r3 with
                | [] => none
                | c3 :: r4 =>
                  if c3 = ',' then (parsePairs f r4).map (fun p => ((k, v) :: p.1, p.2))
                  else if c3 = rbrace then some ([(k, v)], r4)
                  else none
            else none
      else none
end

/-- The model of `json.loads` as called at line 179: parse one value, then
require only trailing whitespace. -/
def json_loads (s : String) : Option Json :=
  match parseVal (s.data.length + 1) s.data with
  | none => none
  | some (v, r) => if skipWs r = [] then some v else none

/-! ## Well-formedness of parsed values -/

/-- Characters that can occur in a string produced by the modelled parser:
everything at or above 0x20, plus the five control characters reachable
through short escapes.  These are exactly the characters the printer
round-trips. -/
def goodChar (c : Char) : Bool :=
  32 ≤ c.toNat || c = '\x08' || c = '\x0C' || c = '\n' || c = '\r' || c = '\t'

/-- Well-formed JSON values: every string character is printable by the
escaping printer, and object keys are pairwise distinct.  Every value the
parser returns is well-formed. -/
inductive WfJson : Json → Prop
  | null : WfJson .null
  | bool (b : Bool) : WfJson (.bool b)
  | num (i : Int) : WfJson (.num i)
  | str (s : List Char) : (∀ c ∈ s, goodChar c = true) → WfJson (.str s)
  | arr (xs : List Json) : (∀ x ∈ xs, WfJson x) → WfJson (.arr xs)
  | obj (kvs : List (List Char × Json)) :
      (kvs.map Prod.fst).Nodup →
      (∀ kv ∈ kvs, ∀ c ∈ kv.1, goodChar c = true) →
      (∀ kv ∈ kvs, WfJson kv.2) →
      WfJson (.obj kvs)

/-! ## Stage-2 marker extraction (lines 199-200) -/

/-- The reasoning-block open marker of the Stage-2 regex. -/
def openMarker : List Char := "<Chain_of_Thought>".data

/-- The conclusions-block close marker of the Stage-2 regex. -/
def closeMarker : List Char := "</Intermediate_Analysis>".data

/-- The pattern `pat` occurs in `cs` starting at index `i`. -/
def occursAt (pat cs : List Char) (i : Nat) : Prop := pat <+: cs.drop i

/-- Index of the first occurrence of `pat` in `cs`, if any. -/
def findFirstIdx (pat : List Char) : List Char → Option Nat
  | [] => if pat.isPrefixOf [] then some 0 else none
  | c :: t =>
    if pat.isPrefixOf (c :: t) then some 0
    else (findFirstIdx pat t).map (· + 1)

/-- Index of the last occurrence of `pat` in `cs`, if any. -/
def findLastAux (pat : List Char) : List Char → Option Nat
  | [] => if pat.isPrefixOf [] then some 0 else none
  | c :: t =>
    match findLastAux pat t with
    | some j => some (j + 1)
    | none => if pat.isPrefixOf (c :: t) then some 0 else none

/-- Index of the last occurrence of `pat` in `cs` starting at index `k` or
later, if any. -/
def findLastIdxFrom (pat cs : List Char) (k : Nat) : Option Nat :=
  (findLastAux pat (cs.drop k)).map (· + k)

/-- The model of lines 199-200: search the raw Stage-2 output for
`(<Chain_of_Thought>[\s\S]*<\/Intermediate_Analysis>)` and take group 1, or
fall back to the whole output.  A greedy match runs from the first occurrence
of the open marker to the last occurrence of the close marker that starts at
or after the end of the open marker; if no such pair exists, re.search finds
no match and the whole output is used. -/
def extractIntermediate (s : String) : String :=
  match findFirstIdx openMarker s.data with
  | none => s
  | some i =>
    match findLastIdxFrom closeMarker s.data (i + openMarker.length) with
    | none => s
    | some j => ⟨(s.data.drop i).take (j + closeMarker.length - i)⟩

/-! ## Schema field names (FinancialMetrics, lines 46-60) -/

/-- The 9 numeric field names of FinancialMetrics. -/
def FinancialMetrics_numeric_fields : List String :=
  ["revenue_current_period", "revenue_previous_period",
   "net_income_current_period", "net_income_previous_period",
   "gross_margin_percentage", "operating_expense_total",
   "cash_from_operations", "total_debt", "cash_and_equivalents"]

/-- The 3 narrative field names of FinancialMetrics. -/
def FinancialMetrics_narrative_fields : List String :=
  ["management_summary", "risk_factors", "future_outlook_statement"]

/-- All 12 field names of the FinancialMetrics schema. -/
def FinancialMetrics_fields : List String :=
  FinancialMetrics_numeric_fields ++ FinancialMetrics_narrative_fields

/-- Whether a parsed value is an object carrying a member named `k`. -/
def objHasKey (v : Json) (k : String) : Bool :=
  match v with
  | .obj kvs => kvs.any (fun kv => kv.1 = k.data)
  | _ => false

/-- Whether a parsed value carries every FinancialMetrics field name. -/
def hasRequiredFields (v : Json) : Bool :=
  FinancialMetrics_fields.all (objHasKey v)

/-! ## Prompt templates (lines 66-122) -/

/-- The Stage-1 prompt (lines 66-72), a fixed string with no substitution. -/
def STAGE_1_PROMPT : String :=
  "\nYou are a highly meticulous Financial Data Analyst. Your sole function is to analyze the provided financial report (PDF, TXT, or MD) and extract the exact values for the specified metrics.\n\nCRITICAL INSTRUCTION: Analyze the entire document, including tables, figures, and narrative text, to locate the requested data points. Provide the values as pure numbers (e.g., 550.5 for $550.5 Million, 0.40 for 40%).\n\nYour output MUST be a JSON object that strictly adheres to the provided schema. DO NOT add any introductory or explanatory text. If a metric is not found, use 0 for numbers or an empty string for text.\n"

/-- Text of the Stage-2 template (lines 74-99) before its placeholder. -/
def STAGE_2_PREFIX : String :=
  "\n<System_Prompt>\nYou are a Senior Financial Strategist. Your task is to perform a detailed financial analysis based solely on the extracted structured data provided in the <Extracted_Data_JSON> tag. Your analysis must follow a structured, step-by-step reasoning process (Chain-of-Thought) to ensure numerical accuracy before drawing conclusions.\n</System_Prompt>\n\n<Extracted_Data_JSON>\n"

/-- Text of the Stage-2 template after its placeholder. -/
def STAGE_2_SUFFIX : String :=
  "\n</Extracted_Data_JSON>\n\n<Instructions>\nFirst, complete the required reasoning steps in the <Chain_of_Thought> section. Then, use the output of that reasoning to fill the <Intermediate_Analysis> section.\n\n<Chain_of_Thought>\n1. **Growth Calculation:** Calculate the Quarter-over-Quarter Revenue Growth Rate (Formula: (Current Revenue - Previous Revenue) / Previous Revenue * 100%). Use the numbers from the JSON.\n2. **Profitability Check:** Calculate the Operating Margin (Net Income / Revenue).\n3. **Liquidity Assessment:** Comment on the immediate liquidity trend by comparing Cash vs. Total Debt.\n4. **Synthesize Work:** Cross-reference the calculated financial trends (growth/margin) with the Management Summary and Risk Factors. What single, major theme connects the financials to the management commentary?\n</Chain_of_Thought>\n\n<Intermediate_Analysis>\n1. **Revenue & Growth:** [Summary of growth calculation and trend.]\n2. **Profitability:** [Summary of operating margin and what Net Income trend reveals.]\n3. **Risk Synthesis:** [Detailed note on how the calculated financial health is impacted by the identified risk factors.]\n4. **Work Done Assessment (The \"Why\"):** [Based on the MD&A summary and financial trends, provide a single paragraph assessing the effectiveness of the *work done* by the company during the period.]\n</Intermediate_Analysis>\n"

/-- The Stage-2 template string itself: prefix, placeholder, suffix. -/
def STAGE_2_PROMPT_TEMPLATE : String :=
  STAGE_2_PREFIX ++ "{extracted_data_placeholder}" ++ STAGE_2_SUFFIX

/-- Text of the Stage-3 template (lines 101-122) before its placeholder. -/
def STAGE_3_PREFIX : String :=
  "\n<System_Prompt>\nYou are the CEO\x27s Chief of Staff. Your final task is to condense the entire analysis (provided in the <Full_Analysis_Data> tag) into a three-part, executive-ready final report.\nTone: Professional, direct, and forward-looking.\nOutput: The final response MUST use Markdown headings (#) and bullet points. DO NOT use any XML tags in your final output.\n</System_Prompt>\n\n<Full_Analysis_Data>\n"

/-- Text of the Stage-3 template after its placeholder. -/
def STAGE_3_SUFFIX : String :=
  "\n</Full_Analysis_Data>\n\n**FINAL REPORT SECTIONS:**\n\n# Executive Summary\n**Max 3 Sentences.** Summarize the period\x27s overall performance, highlighting the main success and the primary challenge/risk.\n\n# Key Insights and Work Assessment\nUse bullet points to present three distinct insights. One must specifically assess the effectiveness of the *work done* by the company during the period.\n\n# Strategic Suggestions for Next Period\nUse bullet points to provide three distinct, actionable, and measurable suggestions for the management team, logically derived from the insights.\n"

/-- The Stage-3 template string itself: prefix, placeholder, suffix. -/
def STAGE_3_PROMPT_TEMPLATE : String :=
  STAGE_3_PREFIX ++ "{full_analysis_data_placeholder}" ++ STAGE_3_SUFFIX

/-- Python str.format on the Stage-2 template (line 191): the template holds
exactly one replacement field and no other braces, so formatting splices the
argument between the prefix and the suffix. -/
def formatStage2 (extracted_data_json : String) : String :=
  STAGE_2_PREFIX ++ extracted_data_json ++ STAGE_2_SUFFIX

/-- Python str.format on the Stage-3 template (line 207), likewise. -/
def formatStage3 (full_analysis_data : String) : String :=
  STAGE_3_PREFIX ++ full_analysis_data ++ STAGE_3_SUFFIX

/-- The aggregation at line 206: both prior artifacts, each under its labeled
heading, joined with a blank line. -/
def full_analysis_of (extracted_data_json intermediate_analysis : String) : String :=
  "STAGE 1 DATA:\n" ++ extracted_data_json ++ "\n\nSTAGE 2 ANALYSIS:\n" ++ intermediate_analysis

/-- The full Stage-3 prompt as a function of the two prior artifacts. -/
def stage3_full_prompt (extracted_data_json intermediate_analysis : String) : String :=
  formatStage3 (full_analysis_of extracted_data_json intermediate_analysis)

/-! ## The stage executor and the chain orchestrator -/

/-- Outcome of one model call: either a raised provider error (transport,
authentication, quota or model failure), or a response whose `.text` may be
absent. -/
def CallOutcome : Type := Except String (Option String)

/-- The oracle for the three model calls of one chain invocation: the Stage-1
outcome (its prompt and file part are fixed), and the Stage-2 and Stage-3
outcomes as functions of the prompt sent. -/
structure Executor where
  stage1 : CallOutcome
  stage2 : String → CallOutcome
  stage3 : String → CallOutcome

/-- The model of `run_gemini_stage` (lines 129-151): a raised provider error
is caught and surfaced as an absent result; otherwise the response text is
returned as is. -/
def run_gemini_stage (outcome : CallOutcome) : Option String :=
  match outcome with
  | .error _ => none
  | .ok t => t

/-- Python truthiness test `not output` on an executor result: absent, or the
empty string. -/
def falsyText (o : Option String) : Bool :=
  match o with
  | none => true
  | some s => s = ""

/-- The model of `run_financial_analysis_chain` (lines 157-215).  Returns the
value the Python function returns (the triple of final report, canonical
Stage-1 artifact and raw Stage-2 output, or no result), paired with the
ordered list of stage invocations, each recorded as the stage number and the
prompt text it was sent. -/
def run_financial_analysis_chain (ex : Executor) :
    Option (String × String × String) × List (Nat × String) :=
  let json_output := run_gemini_stage ex.stage1
  let calls1 := [(1, STAGE_1_PROMPT)]
  match json_output with
  | none => (none, calls1)
  | some s1 =>
    if s1 = "" then (none, calls1)
    else
      match json_loads s1 with
      | none => (none, calls1)
      | some v =>
        let extracted_data_json := json_dumps_indent2 v
        let stage2_full_prompt := formatStage2 extracted_data_json
        let calls2 := calls1 ++ [(2, stage2_full_prompt)]
        match run_gemini_stage (ex.stage2 stage2_full_prompt) with
        | none => (none, calls2)
        | some s2 =>
          if s2 = "" then (none, calls2)
          else
            let intermediate_analysis := extractIntermediate s2
            let p3 := stage3_full_prompt extracted_data_json intermediate_analysis
            let calls3 := calls2 ++ [(3, p3)]
            match run_gemini_stage (ex.stage3 p3) with
            | none => (none, calls3)
            | some s3 =>
              if s3 = "" then (none, calls3)
              else (some (s3, extracted_data_json, s2), calls3)

/-- The stage numbers invoked by a chain run, in order. -/
def stagesInvoked (ex : Executor) : List Nat :=
  (run_financial_analysis_chain ex).2.map Prod.fst

/-- The media-type mapping of lines 235-240: the reported content type
application/pdf maps to document mode, anything else to plain text. -/
def mime_type (uploaded_file_type : String) : String :=
  if uploaded_file_type = "application/pdf" then "application/pdf" else "text/plain"

/-! ## Auxiliary predicates used by the statements and proofs -/

/-- The remaining input cannot extend a scanned integer: empty, or headed by a
character that is neither a digit nor a fraction or exponent opener. -/
def numStop : List Char → Bool
  | [] => true
  | c :: _ => !(isDig c || c = '.' || c = 'e' || c = 'E')

/-- Characters that can follow a printed value inside a dumped document:
nothing, a comma, or the newline opening a separator or a closing line. -/
def stopOk : List Char → Bool
  | [] => true
  | c :: _ => c = ',' || c = '\n'

/-- A character list made of JSON whitespace only. -/
def wsOnly (ws : List Char) : Prop := ∀ c ∈ ws, isJsonWs c = true

/-! ## Concrete inputs used by witnesses and counterexamples -/

/-- A Stage-1 output that is valid JSON with a wrong-typed field: the value
of revenue_current_period is the string N/A. -/
def c1_stage1_output : String := "\x7b\"revenue_current_period\": \"N/A\"\x7d"

/-- An executor whose Stage-1 call returns the wrong-typed-field JSON and
whose later calls succeed. -/
def ex_c1 : Executor :=
  ⟨.ok (some c1_stage1_output), fun _ => .ok (some "reasoning"), fun _ => .ok (some "report")⟩

/-- An executor whose Stage-1 call returns text that is not JSON. -/
def ex_c1_unparsed : Executor :=
  ⟨.ok (some "not json"), fun _ => .ok (some "reasoning"), fun _ => .ok (some "report")⟩

/-- A Stage-2 output holding the open marker once and the close marker twice. -/
def c2_sample : String :=
  "A<Chain_of_Thought>x</Intermediate_Analysis>y</Intermediate_Analysis>z"

/-- The substring of `c2_sample` from the first open marker to the first
close marker after it, inclusive: the artifact the claim predicts. -/
def c2_first_close_claim : String := "<Chain_of_Thought>x</Intermediate_Analysis>"

/-- A Stage-1 output carrying every FinancialMetrics field name. -/
def c3_stage1_output : String :=
  "\x7b\"revenue_current_period\": 1, \"revenue_previous_period\": 2, \"net_income_current_period\": 3, \"net_income_previous_period\": 4, \"gross_margin_percentage\": 5, \"operating_expense_total\": 6, \"cash_from_operations\": 7, \"total_debt\": 8, \"cash_and_equivalents\": 9, \"management_summary\": \"ok\", \"risk_factors\": [\"r1\"], \"future_outlook_statement\": \"up\"\x7d"

/-- The parse of `c3_stage1_output`. -/
def c3_value : Json :=
  .obj [("revenue_current_period".data, .num 1), ("revenue_previous_period".data, .num 2),
        ("net_income_current_period".data, .num 3), ("net_income_previous_period".data, .num 4),
        ("gross_margin_percentage".data, .num 5), ("operating_expense_total".data, .num 6),
        ("cash_from_operations".data, .num 7), ("total_debt".data, .num 8),
        ("cash_and_equivalents".data, .num 9), ("management_summary".data, .str "ok".data),
        ("risk_factors".data, .arr [.str "r1".data]),
        ("future_outlook_statement".data, .str "up".data)]

/-- An executor whose Stage-1 call returns the full-schema JSON. -/
def ex_c3 : Executor :=
  ⟨.ok (some c3_stage1_output), fun _ => .ok (some "reasoning"), fun _ => .ok (some "report")⟩

/-- An executor whose Stage-1 call raises a provider error. -/
def ex_c4 : Executor :=
  ⟨.error "timeout", fun _ => .ok (some "reasoning"), fun _ => .ok (some "report")⟩

/-- An executor whose Stage-2 output has an open marker but no close marker. -/
def ex_c5 : Executor :=
  ⟨.ok (some "\x7b\x7d"), fun _ => .ok (some "<Chain_of_Thought>unfinished reasoning"),
   fun _ => .ok (some "report")⟩

/-- An executor whose Stage-2 call raises a provider error. -/
def ex_c6 : Executor :=
  ⟨.ok (some "\x7b\x7d"), fun _ => .error "quota exceeded", fun _ => .ok (some "report")⟩

/-- An executor whose Stage-3 call raises a provider error after Stages 1 and
2 succeed. -/
def ex_c6b : Executor :=
  ⟨.ok (some "\x7b\x7d"), fun _ => .ok (some "reasoning"),
   fun _ => .error "server overloaded"⟩

/-- An executor whose Stage-1 call returns the empty JSON object. -/
def ex_c7 : Executor :=
  ⟨.ok (some "\x7b\x7d"), fun _ => .ok (some "reasoning"), fun _ => .ok (some "report")⟩

/-- An executor whose Stage-1 call returns a JSON array, not an object. -/
def ex_c10 : Executor :=
  ⟨.ok (some "[1, 2]"), fun _ => .ok (some "reasoning"), fun _ => .ok (some "report")⟩

/-! ## Digit and integer printing lemmas -/

/-- Facts about a digit character produced from a value below ten. -/
theorem dchr_spec (n : Nat) (h : n < 10) :
    isDig (dchr n) = true ∧ dval (dchr n) = n ∧ (0 < n → dchr n ≠ '0') := by
  interval_cases n <;> exact ⟨by decide, by decide, by decide⟩

/-- The accumulator of `natDigs` rides along on the right. -/
theorem natDigs_acc (f : Nat) : ∀ n acc, natDigs f n acc = natDigs f n [] ++ acc := by
  induction f with
  | zero => intro n acc; simp [natDigs]
  | succ f ih =>
    intro n acc
    by_cases h : n < 10
    · simp [natDigs, h]
    · simp only [natDigs, if_neg h]
      rw [ih (n / 10) (dchr (n % 10) :: acc), ih (n / 10) [dchr (n % 10)]]
      simp

/-- One unfolding of `natDigs` in last-digit form. -/
theorem natDigs_step (f n : Nat) :
    natDigs (f + 1) n [] =
      if n < 10 then [dchr n] else natDigs f (n / 10) [] ++ [dchr (n % 10)] := by
  by_cases h : n < 10
  · simp [natDigs, h]
  · simp only [natDigs, if_neg h]
    exact natDigs_acc f (n / 10) [dchr (n % 10)]

/-- Folding a digit list extended by one digit multiplies and adds. -/
theorem numFold_snoc (ds : List Char) (c : Char) :
    numFold (ds ++ [c]) = 10 * numFold ds + dval c := by
  simp [numFold, List.foldl_append]
  ring

/-- The digit characters of `n` under sufficient fuel: non-empty, all digits,
folding back to `n`, and headed by a non-zero digit when `n` is non-zero. -/
theorem natDigs_main : ∀ (f n : Nat), n < 10 ^ (f + 1) →
    natDigs (f + 1) n [] ≠ [] ∧ (∀ c ∈ natDigs (f + 1) n [], isDig c = true) ∧
    numFold (natDigs (f + 1) n []) = n ∧
    (n ≠ 0 → ∃ c t, natDigs (f + 1) n [] = c :: t ∧ c ≠ '0') := by
  intro f
  induction f with
  | zero =>
    intro n hn
    rw [natDigs_step]
    rw [pow_one] at hn
    simp only [if_pos hn]
    obtain ⟨h1, h2, h3⟩ := dchr_spec n hn
    refine ⟨by simp, by simpa using h1, by simpa [numFold] using h2, ?_⟩
    intro hn0
    exact ⟨dchr n, [], rfl, h3 (Nat.pos_of_ne_zero hn0)⟩
  | succ f ih =>
    intro n hn
    rw [natDigs_step]
    by_cases h : n < 10
    · simp only [if_pos h]
      obtain ⟨h1, h2, h3⟩ := dchr_spec n h
      refine ⟨by simp, by simpa using h1, by simpa [numFold] using h2, ?_⟩
      intro hn0
      exact ⟨dchr n, [], rfl, h3 (Nat.pos_of_ne_zero hn0)⟩
    · simp only [if_neg h]
      have hdiv : n / 10 < 10 ^ (f + 1) := by
        have : n < 10 * 10 ^ (f + 1) := by
          calc n < 10 ^ (f + 1 + 1) := hn
          _ = 10 * 10 ^ (f + 1) := by ring
        exact Nat.div_lt_of_lt_mul this
      obtain ⟨ih1, ih2, ih3, ih4⟩ := ih (n / 10) hdiv
      obtain ⟨hm1, hm2, _⟩ := dchr_spec (n % 10) (Nat.mod_lt n (by omega))
      refine ⟨by simp, ?_, ?_, ?_⟩
      · intro c hc
        rcases List.mem_append.mp hc with hc | hc
        · exact ih2 c hc
        · rw [List.mem_singleton] at hc; subst hc; exact hm1
      · rw [numFold_snoc, ih3, hm2]; omega
      · intro _
        obtain ⟨c, t, hct, hc0⟩ := ih4 (by omega)
        exact ⟨c, t ++ [dchr (n % 10)], by rw [hct]; simp, hc0⟩

/-- Every natural number is below ten to its successor. -/
theorem lt_ten_pow (n : Nat) : n < 10 ^ (n + 1) := by
  calc n < 10 ^ n := Nat.lt_pow_self (by norm_num) n
  _ ≤ 10 ^ (n + 1) := Nat.pow_le_pow_right (by norm_num) (by omega)

/-- The decimal characters of a natural number: non-empty, all digits,
folding back to the number, and with a non-zero head for a non-zero number. -/
theorem natChars_spec (n : Nat) :
    natChars n ≠ [] ∧ (∀ c ∈ natChars n, isDig c = true) ∧
    numFold (natChars n) = n ∧
    (n ≠ 0 → ∃ c t, natChars n = c :: t ∧ c ≠ '0') :=
  natDigs_main n n (lt_ten_pow n)

/-- A digit character is not one of the structural characters the parser
dispatches on. -/
theorem isDig_facts (c : Char) (h : isDig c = true) :
    isJsonWs c = false ∧ c ≠ ']' ∧ c ≠ rbrace ∧ c ≠ '-' ∧ c ≠ 'n' ∧ c ≠ 't' ∧
    c ≠ 'f' ∧ c ≠ '"' ∧ c ≠ '[' ∧ c ≠ lbrace ∧ c ≠ ',' := by
  simp only [isDig, Bool.and_eq_true, decide_eq_true_eq] at h
  refine ⟨?_, ?_, ?_, ?_, ?_, ?_, ?_, ?_, ?_, ?_, ?_⟩
  · simp only [isJsonWs, Bool.or_eq_false_iff, decide_eq_false_iff_not]
    refine ⟨⟨⟨?_, ?_⟩, ?_⟩, ?_⟩ <;> (intro hc; subst hc; revert h; decide)
  all_goals (intro hc; subst hc; revert h; decide)

/-! ## Number scanning round trip -/

/-- A number stopper does not open a float continuation. -/
theorem numStop_floatStart (rest : List Char) (h : numStop rest = true) :
    floatStart rest = false := by
  cases rest with
  | nil => rfl
  | cons c t =>
    simp only [numStop, Bool.not_eq_true', Bool.or_eq_false_iff,
      decide_eq_false_iff_not] at h
    simp [floatStart, h.1.2, h.2, h.1.1.2]

/-- A number stopper does not begin with a digit. -/
theorem numStop_head_not_dig (c : Char) (t : List Char) (h : numStop (c :: t) = true) :
    isDig c = false := by
  simp only [numStop, Bool.not_eq_true', Bool.or_eq_false_iff] at h
  exact h.1.1.1

/-- Taking digits from a digit run followed by a number stopper takes exactly
the run. -/
theorem takeWhile_digit_run (ds rest : List Char) (hds : ∀ c ∈ ds, isDig c = true)
    (hr : numStop rest = true) :
    rest.takeWhile isDig = [] ∧ rest.dropWhile isDig = rest ∧
    (ds ++ rest).takeWhile isDig = ds ∧ (ds ++ rest).dropWhile isDig = rest := by
  have hstop : rest.takeWhile isDig = [] ∧ rest.dropWhile isDig = rest := by
    cases rest with
    | nil => simp
    | cons c t =>
      have := numStop_head_not_dig c t hr
      simp [List.takeWhile, List.dropWhile, this]
  refine ⟨hstop.1, hstop.2, ?_, ?_⟩
  · induction ds with
    | nil => simpa using hstop.1
    | cons c t ih =>
      have hc : isDig c = true := hds c (by simp)
      have ht := ih (fun x hx => hds x (by simp [hx]))
      simp [List.takeWhile, hc, ht]
  · induction ds with
    | nil => simpa using hstop.2
    | cons c t ih =>
      have hc : isDig c = true := hds c (by simp)
      have ht := ih (fun x hx => hds x (by simp [hx]))
      simp [List.dropWhile, hc, ht]

/-- Scanning an unsigned printed natural number recovers it. -/
theorem scanUInt_natChars (n : Nat) (rest : List Char) (hr : numStop rest = true) :
    scanUInt (natChars n ++ rest) = some (n, rest) := by
  obtain ⟨hne, hdig, hfold, hhead⟩ := natChars_spec n
  by_cases hn : n = 0
  · subst hn
    have h0 : natChars 0 = ['0'] := rfl
    rw [h0]
    simp [scanUInt, numStop_floatStart rest hr]
  · obtain ⟨c, t, hct, hc0⟩ := hhead hn
    have hcd : isDig c = true := hdig c (by rw [hct]; simp)
    have htd : ∀ x ∈ t, isDig x = true := fun x hx => hdig x (by rw [hct]; simp [hx])
    obtain ⟨_, _, htake, hdrop⟩ := takeWhile_digit_run t rest htd hr
    rw [hct]
    rw [hct] at hfold
    simp only [List.cons_append, scanUInt]
    rw [if_neg hc0, if_pos hcd]
    simp only [htake, hdrop, numStop_floatStart rest hr]
    simp [hfold]

/-- A digit character is not a minus sign. -/
theorem isDig_ne_minus (c : Char) (h : isDig c = true) : c ≠ '-' := by
  intro hc; subst hc; revert h; decide

/-- Scanning a printed integer recovers it. -/
theorem scanInt_intChars (i : Int) (rest : List Char) (hr : numStop rest = true) :
    scanInt (intChars i ++ rest) = some (i, rest) := by
  obtain ⟨hne, hdig, hfold, hhead⟩ := natChars_spec i.natAbs
  by_cases hi : i < 0
  · have harg : intChars i ++ rest = '-' :: (natChars i.natAbs ++ rest) := by
      simp [intChars, hi]
    rw [harg]
    simp only [scanInt, if_pos rfl]
    rw [scanUInt_natChars i.natAbs rest hr]
    have hv : (-(i.natAbs : Int)) = i := by omega
    simp only [Option.map_some']
    rw [hv]
    simp
  · obtain ⟨c, t, hct, _⟩ : ∃ c t, natChars i.natAbs = c :: t ∧ True := by
      cases h : natChars i.natAbs with
      | nil => exact absurd h hne
      | cons c t => exact ⟨c, t, rfl, trivial⟩
    have hcd : isDig c = true := hdig c (by rw [hct]; simp)
    have harg : intChars i ++ rest = c :: (t ++ rest) := by
      simp [intChars, hi, hct]
    rw [harg]
    simp only [scanInt, if_neg (isDig_ne_minus c hcd)]
    have : scanUInt (natChars i.natAbs ++ rest) = some (i.natAbs, rest) :=
      scanUInt_natChars i.natAbs rest hr
    rw [hct] at this
    simp only [List.cons_append] at this
    rw [this]
    have hv : ((i.natAbs : Int)) = i := by omega
    simp [hv]

/-! ## Whitespace lemmas -/

/-- Skipping whitespace leaves a list headed by a non-whitespace character
unchanged. -/
theorem skipWs_not_ws (c : Char) (cs : List Char) (h : isJsonWs c = false) :
    skipWs (c :: cs) = c :: cs := by
  simp [skipWs, h]

/-- Skipping whitespace removes a leading all-whitespace block. -/
theorem skipWs_ws_append (ws : List Char) (z : List Char) (h : wsOnly ws) :
    skipWs (ws ++ z) = skipWs z := by
  induction ws with
  | nil => simp
  | cons c t ih =>
    have hc : isJsonWs c = true := h c (by simp)
    have ht : wsOnly t := fun x hx => h x (by simp [hx])
    simp [skipWs, hc, ih ht]

/-- Indentation prefixes are whitespace. -/
theorem wsOnly_indentChars (n : Nat) : wsOnly (indentChars n) := by
  intro c hc
  rw [indentChars, List.mem_replicate] at hc
  rw [hc.2]
  rfl

/-- The empty list is whitespace. -/
theorem wsOnly_nil : wsOnly [] := fun c hc => absurd hc (List.not_mem_nil c)

/-- A newline prepended to whitespace is whitespace. -/
theorem wsOnly_newline_cons (ws : List Char) (h : wsOnly ws) : wsOnly ('\n' :: ws) := by
  intro c hc
  rcases List.mem_cons.mp hc with hc | hc
  · rw [hc]; rfl
  · exact h c hc

/-- A single space is whitespace. -/
theorem wsOnly_space : wsOnly [' '] := by
  intro c hc
  rw [List.mem_singleton] at hc
  rw [hc]
  rfl

/-! ## String scanning: soundness and round trip -/

/-- Unfolding of the printable-character predicate as a disjunction. -/
theorem goodChar_iff (c : Char) : goodChar c = true ↔
    (32 ≤ c.toNat ∨ c = '\x08' ∨ c = '\x0C' ∨ c = '\n' ∨ c = '\r' ∨ c = '\t') := by
  simp only [goodChar, Bool.or_eq_true, decide_eq_true_eq]
  tauto

/-- Any character decoded from an escape is printable. -/
theorem unesc_good (e d : Char) (h : unesc e = some d) : goodChar d = true := by
  simp only [unesc] at h
  repeat' split at h
  all_goals first
    | (injection h with h; subst h; decide)
    | exact absurd h (by simp)

/-- The string scanner fails on an empty input. -/
theorem scanStr_nil : scanStr [] = none := by
  rw [scanStr.eq_def]

/-- The string scanner closes on a double quote. -/
theorem scanStr_quote (cs : List Char) : scanStr ('"' :: cs) = some ([], cs) := by
  rw [scanStr.eq_def]
  simp

/-- The string scanner fails on a trailing backslash. -/
theorem scanStr_bslash_nil : scanStr ['\\'] = none := by
  rw [scanStr.eq_def]
  simp

/-- The string scanner on a backslash decodes the escape and continues. -/
theorem scanStr_bslash (e : Char) (cs2 : List Char) :
    scanStr ('\\' :: e :: cs2) =
      match unesc e with
      | none => none
      | some d =>
        match scanStr cs2 with
        | none => none
        | some (s, r) => some (d :: s, r) := by
  rw [scanStr.eq_def]
  simp

/-- The string scanner rejects a raw control character. -/
theorem scanStr_ctrl (c : Char) (cs : List Char) (h1 : ¬c = '"') (h2 : ¬c = '\\')
    (h3 : c.toNat < 32) : scanStr (c :: cs) = none := by
  rw [scanStr.eq_def]
  simp only [if_neg h1, if_neg h2, if_pos h3]

/-- The string scanner passes a raw printable character through. -/
theorem scanStr_raw (c : Char) (cs : List Char) (h1 : ¬c = '"') (h2 : ¬c = '\\')
    (h3 : ¬c.toNat < 32) :
    scanStr (c :: cs) =
      match scanStr cs with
      | none => none
      | some (s, r) => some (c :: s, r) := by
  rw [scanStr.eq_def]
  simp only [if_neg h1, if_neg h2, if_neg h3]

/-- Characters accepted by the string scanner are printable (stated with a
length bound carrying the strong induction). -/
theorem scanStr_good_aux : ∀ (n : Nat) (cs : List Char), cs.length ≤ n →
    ∀ s r, scanStr cs = some (s, r) → ∀ c ∈ s, goodChar c = true := by
  intro n
  induction n with
  | zero =>
    intro cs hlen s r h
    have : cs = [] := List.eq_nil_of_length_eq_zero (by omega)
    subst this
    rw [scanStr_nil] at h
    exact absurd h (by simp)
  | succ n ih =>
    intro cs hlen s r h
    cases cs with
    | nil =>
      rw [scanStr_nil] at h
      exact absurd h (by simp)
    | cons c cs =>
      by_cases h1 : c = '"'
      · subst h1
        rw [scanStr_quote] at h
        injection h with h
        injection h with hs hr
        subst hs
        simp
      · by_cases h2 : c = '\\'
        · subst h2
          cases cs with
          | nil => rw [scanStr_bslash_nil] at h; exact absurd h (by simp)
          | cons e cs2 =>
            rw [scanStr_bslash] at h
            cases hu : unesc e with
            | none => simp only [hu] at h; exact absurd h (by simp)
            | some d =>
              simp only [hu] at h
              cases hs : scanStr cs2 with
              | none => simp only [hs] at h; exact absurd h (by simp)
              | some p =>
                obtain ⟨s2, r2⟩ := p
                simp only [hs] at h
                injection h with h
                injection h with hsv hr
                subst hsv
                intro x hx
                rcases List.mem_cons.mp hx with rfl | hx
                · exact unesc_good e x hu
                · refine ih cs2 ?_ s2 r2 hs x hx
                  simp only [List.length_cons] at hlen
                  omega
        · by_cases h3 : c.toNat < 32
          · rw [scanStr_ctrl c cs h1 h2 h3] at h
            exact absurd h (by simp)
          · rw [scanStr_raw c cs h1 h2 h3] at h
            cases hs : scanStr cs with
            | none => simp only [hs] at h; exact absurd h (by simp)
            | some p =>
              obtain ⟨s2, r2⟩ := p
              simp only [hs] at h
              injection h with h
              injection h with hsv hr
              subst hsv
              intro x hx
              rcases List.mem_cons.mp hx with rfl | hx
              · rw [goodChar_iff]
                left
                omega
              · refine ih cs ?_ s2 r2 hs x hx
                simp only [List.length_cons] at hlen
                omega

/-- Characters accepted by the string scanner are printable. -/
theorem scanStr_good (cs s r : List Char) (h : scanStr cs = some (s, r)) :
    ∀ c ∈ s, goodChar c = true :=
  scanStr_good_aux cs.length cs le_rfl s r h

/-- Scanning the escaped body of a printable string recovers it. -/
theorem scanStr_escBody : ∀ (s : List Char), (∀ c ∈ s, goodChar c = true) →
    ∀ rest, scanStr (escBody s ++ '"' :: rest) = some (s, rest)
  | [], _, rest => by
    have hb : escBody [] ++ '"' :: rest = '"' :: rest := by simp [escBody]
    rw [hb, scanStr_quote]
  | c :: s, hgood, rest => by
    have hc := hgood c (by simp)
    have hs := scanStr_escBody s (fun x hx => hgood x (by simp [hx])) rest
    have hbody : escBody (c :: s) ++ '"' :: rest
        = escChar c ++ (escBody s ++ '"' :: rest) := by
      simp [escBody]
    rw [hbody]
    by_cases e1 : c = '\\'
    · subst e1
      rw [show escChar '\\' = ['\\', '\\'] from rfl]
      simp only [List.cons_append, List.nil_append]
      rw [scanStr_bslash]
      simp [unesc, hs]
    · by_cases e2 : c = '"'
      · subst e2
        rw [show escChar '"' = ['\\', '"'] from rfl]
        simp only [List.cons_append, List.nil_append]
        rw [scanStr_bslash]
        simp [unesc, hs]
      · by_cases e3 : c = '\x08'
        · subst e3
          rw [show escChar '\x08' = ['\\', 'b'] from rfl]
          simp only [List.cons_append, List.nil_append]
          rw [scanStr_bslash]
          simp [unesc, hs]
        · by_cases e4 : c = '\x0C'
          · subst e4
            rw [show escChar '\x0C' = ['\\', 'f'] from rfl]
            simp only [List.cons_append, List.nil_append]
            rw [scanStr_bslash]
            simp [unesc, hs]
          · by_cases e5 : c = '\n'
            · subst e5
              rw [show escChar '\n' = ['\\', 'n'] from rfl]
              simp only [List.cons_append, List.nil_append]
              rw [scanStr_bslash]
              simp [unesc, hs]
            · by_cases e6 : c = '\r'
              · subst e6
                rw [show escChar '\r' = ['\\', 'r'] from rfl]
                simp only [List.cons_append, List.nil_append]
                rw [scanStr_bslash]
                simp [unesc, hs]
              · by_cases e7 : c = '\t'
                · subst e7
                  rw [show escChar '\t' = ['\\', 't'] from rfl]
                  simp only [List.cons_append, List.nil_append]
                  rw [scanStr_bslash]
                  simp [unesc, hs]
                · have hge : ¬(c.toNat < 32) := by
                    intro hlt
                    rw [goodChar_iff] at hc
                    rcases hc with hc | hc | hc | hc | hc | hc
                    · omega
                    · exact e3 hc
                    · exact e4 hc
                    · exact e5 hc
                    · exact e6 hc
                    · exact e7 hc
                  have hesc : escChar c = [c] := by
                    simp [escChar, e1, e2, e3, e4, e5, e6, e7]
                  rw [hesc]
                  simp only [List.singleton_append]
                  rw [scanStr_raw c _ e2 e1 hge]
                  simp only [hs]
/-! ## Dict-insertion lemmas -/

/-- Every member of an insertion result was already a member or is the
inserted pair. -/
theorem mem_dictInsert (d : List (List Char × Json)) (k : List Char) (v : Json) :
    ∀ kv ∈ dictInsert d k v, kv ∈ d ∨ kv = (k, v) := by
  induction d with
  | nil =>
    intro kv hkv
    rw [dictInsert] at hkv
    right
    simpa using hkv
  | cons hd t ih =>
    obtain ⟨k0, v0⟩ := hd
    intro kv hkv
    rw [dictInsert] at hkv
    by_cases hk : k0 = k
    · rw [if_pos hk] at hkv
      rcases List.mem_cons.mp hkv with rfl | hkv
      · right; rw [hk]
      · left; exact List.mem_cons_of_mem _ hkv
    · rw [if_neg hk] at hkv
      rcases List.mem_cons.mp hkv with rfl | hkv
      · left; exact List.mem_cons_self _ _
      · rcases ih kv hkv with h | h
        · left; exact List.mem_cons_of_mem _ h
        · right; exact h

/-- Every key of an insertion result was already a key or is the inserted
key. -/
theorem keys_dictInsert (d : List (List Char × Json)) (k : List Char) (v : Json) :
    ∀ k0 ∈ (dictInsert d k v).map Prod.fst, k0 ∈ d.map Prod.fst ∨ k0 = k := by
  intro k0 hk0
  rw [List.mem_map] at hk0
  obtain ⟨kv, hkv, hfst⟩ := hk0
  rcases mem_dictInsert d k v kv hkv with h | h
  · left; rw [List.mem_map]; exact ⟨kv, h, hfst⟩
  · right; rw [h] at hfst; rw [← hfst]

/-- Insertion preserves distinctness of keys. -/
theorem nodup_dictInsert (d : List (List Char × Json)) (k : List Char) (v : Json)
    (h : (d.map Prod.fst).Nodup) : ((dictInsert d k v).map Prod.fst).Nodup := by
  induction d with
  | nil =>
    rw [dictInsert]
    simp
  | cons hd t ih =>
    obtain ⟨k0, v0⟩ := hd
    rw [dictInsert]
    simp only [List.map_cons, List.nodup_cons] at h
    by_cases hk : k0 = k
    · rw [if_pos hk]
      simp only [List.map_cons, List.nodup_cons]
      exact ⟨h.1, h.2⟩
    · rw [if_neg hk]
      simp only [List.map_cons, List.nodup_cons]
      refine ⟨?_, ih h.2⟩
      intro hmem
      rcases keys_dictInsert t k v k0 hmem with hin | heq
      · exact h.1 hin
      · exact hk heq

/-- Inserting a fresh key appends the pair. -/
theorem dictInsert_fresh (d : List (List Char × Json)) (k : List Char) (v : Json)
    (h : k ∉ d.map Prod.fst) : dictInsert d k v = d ++ [(k, v)] := by
  induction d with
  | nil => rw [dictInsert]; rfl
  | cons hd t ih =>
    obtain ⟨k0, v0⟩ := hd
    simp only [List.map_cons, List.mem_cons, not_or] at h
    rw [dictInsert, if_neg (fun he => h.1 he.symm)]
    rw [ih h.2]
    rfl

/-- Built objects have distinct keys, whatever the scanned member list. -/
theorem buildObj_nodup_aux (ps : List (List Char × Json)) :
    ∀ d, (d.map Prod.fst).Nodup →
      ((ps.foldl (fun d kv => dictInsert d kv.1 kv.2) d).map Prod.fst).Nodup := by
  induction ps with
  | nil => intro d hd; simpa using hd
  | cons p ps ih =>
    intro d hd
    rw [List.foldl_cons]
    exact ih (dictInsert d p.1 p.2) (nodup_dictInsert d p.1 p.2 hd)

/-- Built objects have distinct keys. -/
theorem buildObj_nodup (ps : List (List Char × Json)) :
    ((buildObj ps).map Prod.fst).Nodup :=
  buildObj_nodup_aux ps [] (by simp)

/-- Every member of a built object is one of the scanned members. -/
theorem mem_buildObj_aux (ps : List (List Char × Json)) :
    ∀ d kv, kv ∈ ps.foldl (fun d kv => dictInsert d kv.1 kv.2) d → kv ∈ d ∨ kv ∈ ps := by
  induction ps with
  | nil => intro d kv h; left; simpa using h
  | cons p ps ih =>
    intro d kv h
    rw [List.foldl_cons] at h
    rcases ih (dictInsert d p.1 p.2) kv h with h2 | h2
    · rcases mem_dictInsert d p.1 p.2 kv h2 with h3 | h3
      · left; exact h3
      · right; rw [h3]; exact List.mem_cons_self _ _
    · right; exact List.mem_cons_of_mem _ h2

/-- Every member of a built object is one of the scanned members. -/
theorem mem_buildObj (ps : List (List Char × Json)) (kv : List Char × Json)
    (h : kv ∈ buildObj ps) : kv ∈ ps := by
  rcases mem_buildObj_aux ps [] kv h with h2 | h2
  · exact absurd h2 (List.not_mem_nil kv)
  · exact h2

/-- Folding dict insertion over members with globally distinct keys appends
them in order. -/
theorem foldl_dictInsert_app (ps : List (List Char × Json)) :
    ∀ d, ((d ++ ps).map Prod.fst).Nodup →
      ps.foldl (fun d kv => dictInsert d kv.1 kv.2) d = d ++ ps := by
  induction ps with
  | nil => intro d _; simp
  | cons p ps ih =>
    intro d hd
    rw [List.foldl_cons]
    have hfresh : p.1 ∉ d.map Prod.fst := by
      intro hmem
      rw [List.map_append, List.nodup_append] at hd
      refine hd.2.2 hmem ?_
      rw [List.map_cons]
      exact List.mem_cons_self _ _
    rw [dictInsert_fresh d p.1 p.2 hfresh]
    have : ((d ++ [(p.1, p.2)]) ++ ps).map Prod.fst = ((d ++ p :: ps).map Prod.fst) := by
      simp
    rw [ih (d ++ [(p.1, p.2)]) (by rw [this]; exact hd)]
    simp

/-- Building an object from members with distinct keys reproduces them. -/
theorem buildObj_self (ps : List (List Char × Json))
    (h : (ps.map Prod.fst).Nodup) : buildObj ps = ps := by
  have := foldl_dictInsert_app ps [] (by simpa using h)
  simpa [buildObj] using this

/-! ## Parser step lemmas -/

/-- The value parser fails with no fuel. -/
theorem parseVal_zero (cs : List Char) : parseVal 0 cs = none := by
  rw [parseVal.eq_def]

/-- One-step unfolding of the value parser at successor fuel. -/
theorem parseVal_succ (f : Nat) (cs : List Char) :
    parseVal (f + 1) cs =
      match skipWs cs with
      | [] => none
      | c :: r =>
        if c = 'n' then
          match r with
          | 'u' :: 'l' :: 'l' :: r2 => some (.null, r2)
          | _ => none
        else if c = 't' then
          match r with
          | 'r' :: 'u' :: 'e' :: r2 => some (.bool true, r2)
          | _ => none
        else if c = 'f' then
          match r with
          | 'a' :: 'l' :: 's' :: 'e' :: r2 => some (.bool false, r2)
          | _ => none
        else if c = '"' then
          (scanStr r).map (fun p => (.str p.1, p.2))
        else if c = '[' then
          match skipWs r with
          | [] => none
          | c2 :: r2 =>
            if c2 = ']' then some (.arr [], r2)
            else (parseItems f (c2 :: r2)).map (fun p => (.arr p.1, p.2))
        else if c = lbrace then
          match skipWs r with
          | [] => none
          | c2 :: r2 =>
            if c2 = rbrace then some (.obj [], r2)
            else (parsePairs f (c2 :: r2)).map (fun p => (.obj (buildObj p.1), p.2))
        else if c = '-' || isDig c then
          (scanInt (c :: r)).map (fun p => (.num p.1, p.2))
        else none := by
  rw [parseVal.eq_def]

/-- The item parser fails with no fuel. -/
theorem parseItems_zero (cs : List Char) : parseItems 0 cs = none := by
  rw [parseItems.eq_def]

/-- One-step unfolding of the item parser at successor fuel. -/
theorem parseItems_succ (f : Nat) (cs : List Char) :
    parseItems (f + 1) cs =
      match parseVal f cs with
      | none => none
      | some (v, r) =>
        match skipWs r with
        | [] => none
        | c :: r2 =>
          if c = ',' then (parseItems f r2).map (fun p => (v :: p.1, p.2))
          else if c = ']' then some ([v], r2)
          else none := by
  rw [parseItems.eq_def]

/-- The member parser fails with no fuel. -/
theorem parsePairs_zero (cs : List Char) : parsePairs 0 cs = none := by
  rw [parsePairs.eq_def]

/-- One-step unfolding of the member parser at successor fuel. -/
theorem parsePairs_succ (f : Nat) (cs : List Char) :
    parsePairs (f + 1) cs =
      match skipWs cs with
      | [] => none
      | c :: r =>
        if c = '"' then
          match scanStr r with
          | none => none
          | some (k, r1) =>
            match skipWs r1 with
            | [] => none
            | c2 :: r2 =>
              if c2 = ':' then
                match parseVal f r2 with
                | none => none
                | some (v, r3) =>
                  match skipWs r3 with
                  | [] => none
                  | c3 :: r4 =>
                    if c3 = ',' then (parsePairs f r4).map (fun p => ((k, v) :: p.1, p.2))
                    else if c3 = rbrace then some ([(k, v)], r4)
                    else none
              else none
        else none := by
  rw [parsePairs.eq_def]

/-- The parse of a source whose whitespace-stripped form spells null. -/
theorem parseVal_null_tok (f : Nat) (cs rest : List Char)
    (h : skipWs cs = 'n' :: 'u' :: 'l' :: 'l' :: rest) :
    parseVal (f + 1) cs = some (.null, rest) := by
  rw [parseVal_succ, h]
  simp

/-- The parse of a source whose whitespace-stripped form spells true. -/
theorem parseVal_true_tok (f : Nat) (cs rest : List Char)
    (h : skipWs cs = 't' :: 'r' :: 'u' :: 'e' :: rest) :
    parseVal (f + 1) cs = some (.bool true, rest) := by
  rw [parseVal_succ, h]
  simp

/-- The parse of a source whose whitespace-stripped form spells false. -/
theorem parseVal_false_tok (f : Nat) (cs rest : List Char)
    (h : skipWs cs = 'f' :: 'a' :: 'l' :: 's' :: 'e' :: rest) :
    parseVal (f + 1) cs = some (.bool false, rest) := by
  rw [parseVal_succ, h]
  simp

/-- The parse of a source whose whitespace-stripped form opens a string. -/
theorem parseVal_str_tok (f : Nat) (cs r : List Char)
    (h : skipWs cs = '"' :: r) :
    parseVal (f + 1) cs = (scanStr r).map (fun p => (.str p.1, p.2)) := by
  rw [parseVal_succ, h]
  simp

/-- The parse of a source whose whitespace-stripped form opens an empty
array. -/
theorem parseVal_arr_nil_tok (f : Nat) (cs r r2 : List Char)
    (h : skipWs cs = '[' :: r) (h2 : skipWs r = ']' :: r2) :
    parseVal (f + 1) cs = some (.arr [], r2) := by
  rw [parseVal_succ, h]
  simp [h2]

/-- The parse of a source whose whitespace-stripped form opens a non-empty
array. -/
theorem parseVal_arr_tok (f : Nat) (cs r : List Char) (c2 : Char) (r2 : List Char)
    (h : skipWs cs = '[' :: r) (h2 : skipWs r = c2 :: r2) (hc2 : ¬c2 = ']') :
    parseVal (f + 1) cs = (parseItems f (c2 :: r2)).map (fun p => (.arr p.1, p.2)) := by
  rw [parseVal_succ, h]
  simp [h2, hc2]

/-- The parse of a source whose whitespace-stripped form opens an empty
object. -/
theorem parseVal_obj_nil_tok (f : Nat) (cs r r2 : List Char)
    (h : skipWs cs = lbrace :: r) (h2 : skipWs r = rbrace :: r2) :
    parseVal (f + 1) cs = some (.obj [], r2) := by
  rw [parseVal_succ, h]
  simp +decide [h2]

/-- The parse of a source whose whitespace-stripped form opens a non-empty
object. -/
theorem parseVal_obj_tok (f : Nat) (cs r : List Char) (c2 : Char) (r2 : List Char)
    (h : skipWs cs = lbrace :: r) (h2 : skipWs r = c2 :: r2) (hc2 : ¬c2 = rbrace) :
    parseVal (f + 1) cs = (parsePairs f (c2 :: r2)).map (fun p => (.obj (buildObj p.1), p.2)) := by
  rw [parseVal_succ, h]
  simp +decide [h2, hc2]

/-- The parse of a source whose whitespace-stripped form opens a number. -/
theorem parseVal_num_tok (f : Nat) (cs : List Char) (c : Char) (r : List Char)
    (h : skipWs cs = c :: r) (hnum : (c = '-' || isDig c) = true) :
    parseVal (f + 1) cs = (scanInt (c :: r)).map (fun p => (.num p.1, p.2)) := by
  have hfacts : ¬c = 'n' ∧ ¬c = 't' ∧ ¬c = 'f' ∧ ¬c = '"' ∧ ¬c = '[' ∧ ¬c = lbrace := by
    rw [Bool.or_eq_true, decide_eq_true_eq] at hnum
    rcases hnum with rfl | hdig
    · refine ⟨by decide, by decide, by decide, by decide, by decide, ?_⟩
      simp [lbrace]
    · obtain ⟨_, _, _, _, h5, h6, h7, h8, h9, h10, _⟩ := isDig_facts c hdig
      exact ⟨h5, h6, h7, h8, h9, h10⟩
  obtain ⟨h1, h2, h3, h4, h5, h6⟩ := hfacts
  rw [parseVal_succ, h]
  simp only [if_neg h1, if_neg h2, if_neg h3, if_neg h4, if_neg h5, if_neg h6, hnum, if_true]

/-! ## Parser soundness: parsed values are well-formed -/

/-- Any value, item list or member list the parser accepts is well-formed,
for every fuel. -/
theorem parse_sound_aux : ∀ (f : Nat),
    (∀ cs v r, parseVal f cs = some (v, r) → WfJson v) ∧
    (∀ cs xs r, parseItems f cs = some (xs, r) → ∀ x ∈ xs, WfJson x) ∧
    (∀ cs ps r, parsePairs f cs = some (ps, r) →
      ∀ kv ∈ ps, (∀ c ∈ kv.1, goodChar c = true) ∧ WfJson kv.2) := by
  intro f
  induction f with
  | zero =>
    refine ⟨?_, ?_, ?_⟩
    · intro cs v r h; rw [parseVal_zero] at h; exact absurd h (by simp)
    · intro cs xs r h; rw [parseItems_zero] at h; exact absurd h (by simp)
    · intro cs ps r h; rw [parsePairs_zero] at h; exact absurd h (by simp)
  | succ f ih =>
    obtain ⟨ihv, ihi, ihp⟩ := ih
    refine ⟨?_, ?_, ?_⟩
    · intro cs v r h
      rw [parseVal_succ] at h
      cases hsk : skipWs cs with
      | nil => simp only [hsk] at h; exact absurd h (by simp)
      | cons c r0 =>
        simp only [hsk] at h
        by_cases hn : c = 'n'
        · rw [if_pos hn] at h
          split at h
          · injection h with h; injection h with h1 h2; subst h1; exact WfJson.null
          · exact absurd h (by simp)
        · rw [if_neg hn] at h
          by_cases ht : c = 't'
          · rw [if_pos ht] at h
            split at h
            · injection h with h; injection h with h1 h2; subst h1; exact WfJson.bool true
            · exact absurd h (by simp)
          · rw [if_neg ht] at h
            by_cases hf : c = 'f'
            · rw [if_pos hf] at h
              split at h
              · injection h with h; injection h with h1 h2; subst h1; exact WfJson.bool false
              · exact absurd h (by simp)
            · rw [if_neg hf] at h
              by_cases hq : c = '"'
              · rw [if_pos hq] at h
                cases hs : scanStr r0 with
                | none => simp only [hs] at h; exact absurd h (by simp)
                | some p =>
                  obtain ⟨s, r1⟩ := p
                  simp only [hs, Option.map_some'] at h
                  injection h with h; injection h with h1 h2; subst h1
                  exact WfJson.str s (scanStr_good r0 s r1 hs)
              · rw [if_neg hq] at h
                by_cases hb : c = '['
                · rw [if_pos hb] at h
                  cases hsk2 : skipWs r0 with
                  | nil => simp only [hsk2] at h; exact absurd h (by simp)
                  | cons c2 r2 =>
                    simp only [hsk2] at h
                    by_cases hcb : c2 = ']'
                    · rw [if_pos hcb] at h
                      injection h with h; injection h with h1 h2; subst h1
                      exact WfJson.arr [] (by simp)
                    · rw [if_neg hcb] at h
                      cases hit : parseItems f (c2 :: r2) with
                      | none => simp only [hit] at h; exact absurd h (by simp)
                      | some p =>
                        obtain ⟨xs, r3⟩ := p
                        simp only [hit, Option.map_some'] at h
                        injection h with h; injection h with h1 h2; subst h1
                        exact WfJson.arr xs (ihi (c2 :: r2) xs r3 hit)
                · rw [if_neg hb] at h
                  by_cases ho : c = lbrace
                  · rw [if_pos ho] at h
                    cases hsk2 : skipWs r0 with
                    | nil => simp only [hsk2] at h; exact absurd h (by simp)
                    | cons c2 r2 =>
                      simp only [hsk2] at h
                      by_cases hcb : c2 = rbrace
                      · rw [if_pos hcb] at h
                        injection h with h; injection h with h1 h2; subst h1
                        exact WfJson.obj [] (by simp) (by simp) (by simp)
                      · rw [if_neg hcb] at h
                        cases hps : parsePairs f (c2 :: r2) with
                        | none => simp only [hps] at h; exact absurd h (by simp)
                        | some p =>
                          obtain ⟨ps, r3⟩ := p
                          simp only [hps, Option.map_some'] at h
                          injection h with h; injection h with h1 h2; subst h1
                          refine WfJson.obj (buildObj ps) (buildObj_nodup ps) ?_ ?_
                          · intro kv hkv
                            exact (ihp (c2 :: r2) ps r3 hps kv (mem_buildObj ps kv hkv)).1
                          · intro kv hkv
                            exact (ihp (c2 :: r2) ps r3 hps kv (mem_buildObj ps kv hkv)).2
                  · rw [if_neg ho] at h
                    by_cases hnum : (c = '-' || isDig c) = true
                    · rw [hnum] at h
                      rw [if_pos rfl] at h
                      cases hsi : scanInt (c :: r0) with
                      | none => simp only [hsi] at h; exact absurd h (by simp)
                      | some p =>
                        obtain ⟨i, r1⟩ := p
                        simp only [hsi, Option.map_some'] at h
                        injection h with h; injection h with h1 h2; subst h1
                        exact WfJson.num i
                    · rw [Bool.not_eq_true] at hnum
                      rw [hnum] at h
                      exact absurd h (by simp)
    · intro cs xs r h
      rw [parseItems_succ] at h
      cases hv : parseVal f cs with
      | none => simp only [hv] at h; exact absurd h (by simp)
      | some p =>
        obtain ⟨v, r0⟩ := p
        simp only [hv] at h
        cases hsk : skipWs r0 with
        | nil => simp only [hsk] at h; exact absurd h (by simp)
        | cons c r2 =>
          simp only [hsk] at h
          by_cases hc : c = ','
          · rw [if_pos hc] at h
            cases hit : parseItems f r2 with
            | none => simp only [hit] at h; exact absurd h (by simp)
            | some p2 =>
              obtain ⟨xs2, r3⟩ := p2
              simp only [hit, Option.map_some'] at h
              injection h with h; injection h with h1 h2; subst h1
              intro x hx
              rcases List.mem_cons.mp hx with rfl | hx
              · exact ihv cs x r0 hv
              · exact ihi r2 xs2 r3 hit x hx
          · rw [if_neg hc] at h
            by_cases hcb : c = ']'
            · rw [if_pos hcb] at h
              injection h with h; injection h with h1 h2; subst h1
              intro x hx
              rw [List.mem_singleton] at hx
              subst hx
              exact ihv cs x r0 hv
            · rw [if_neg hcb] at h
              exact absurd h (by simp)
    · intro cs ps r h
      rw [parsePairs_succ] at h
      cases hsk : skipWs cs with
      | nil => simp only [hsk] at h; exact absurd h (by simp)
      | cons c r0 =>
        simp only [hsk] at h
        by_cases hq : c = '"'
        · rw [if_pos hq] at h
          cases hs : scanStr r0 with
          | none => simp only [hs] at h; exact absurd h (by simp)
          | some p =>
            obtain ⟨k, r1⟩ := p
            simp only [hs] at h
            cases hsk2 : skipWs r1 with
            | nil => simp only [hsk2] at h; exact absurd h (by simp)
            | cons c2 r2 =>
              simp only [hsk2] at h
              by_cases hcol : c2 = ':'
              · rw [if_pos hcol] at h
                cases hv : parseVal f r2 with
                | none => simp only [hv] at h; exact absurd h (by simp)
                | some p2 =>
                  obtain ⟨v, r3⟩ := p2
                  simp only [hv] at h
                  cases hsk3 : skipWs r3 with
                  | nil => simp only [hsk3] at h; exact absurd h (by simp)
                  | cons c3 r4 =>
                    simp only [hsk3] at h
                    by_cases hcm : c3 = ','
                    · rw [if_pos hcm] at h
                      cases hps : parsePairs f r4 with
                      | none => simp only [hps] at h; exact absurd h (by simp)
                      | some p3 =>
                        obtain ⟨ps2, r5⟩ := p3
                        simp only [hps, Option.map_some'] at h
                        injection h with h; injection h with h1 h2; subst h1
                        intro kv hkv
                        rcases List.mem_cons.mp hkv with rfl | hkv
                        · exact ⟨scanStr_good r0 k r1 hs, ihv r2 v r3 hv⟩
                        · exact ihp r4 ps2 r5 hps kv hkv
                    · rw [if_neg hcm] at h
                      by_cases hcb : c3 = rbrace
                      · rw [if_pos hcb] at h
                        injection h with h; injection h with h1 h2; subst h1
                        intro kv hkv
                        rw [List.mem_singleton] at hkv
                        subst hkv
                        exact ⟨scanStr_good r0 k r1 hs, ihv r2 v r3 hv⟩
                      · rw [if_neg hcb] at h
                        exact absurd h (by simp)
              · rw [if_neg hcol] at h
                exact absurd h (by simp)
        · rw [if_neg hq] at h
          exact absurd h (by simp)

/-- Any value returned by json.loads is well-formed. -/
theorem json_loads_sound (s : String) (v : Json) (h : json_loads s = some v) :
    WfJson v := by
  rw [json_loads] at h
  cases hp : parseVal (s.data.length + 1) s.data with
  | none => simp only [hp] at h; exact absurd h (by simp)
  | some p =>
    obtain ⟨v0, r⟩ := p
    simp only [hp] at h
    by_cases hr : skipWs r = []
    · rw [if_pos hr] at h
      injection h with h
      subst h
      exact (parse_sound_aux (s.data.length + 1)).1 s.data v0 r hp
    · rw [if_neg hr] at h
      exact absurd h (by simp)

/-! ## Printer equations and head characters -/

/-- Printing null. -/
theorem dumpJ_null (ind : Nat) : dumpJ ind .null = ['n', 'u', 'l', 'l'] := rfl

/-- Printing true. -/
theorem dumpJ_true (ind : Nat) : dumpJ ind (.bool true) = ['t', 'r', 'u', 'e'] := rfl

/-- Printing false. -/
theorem dumpJ_false (ind : Nat) : dumpJ ind (.bool false) = ['f', 'a', 'l', 's', 'e'] := rfl

/-- Printing a number. -/
theorem dumpJ_num (ind : Nat) (i : Int) : dumpJ ind (.num i) = intChars i := rfl

/-- Printing a string. -/
theorem dumpJ_str (ind : Nat) (s : List Char) : dumpJ ind (.str s) = quoteStr s := rfl

/-- Printing an empty array. -/
theorem dumpJ_arr_nil (ind : Nat) : dumpJ ind (.arr []) = ['[', ']'] := rfl

/-- Printing a non-empty array. -/
theorem dumpJ_arr_cons (ind : Nat) (x : Json) (xs : List Json) :
    dumpJ ind (.arr (x :: xs)) =
      '[' :: '\n' :: (indentChars (ind + 2) ++ (dumpArrBody (ind + 2) (x :: xs)
        ++ '\n' :: (indentChars ind ++ [']']))) := rfl

/-- Printing an empty object. -/
theorem dumpJ_obj_nil (ind : Nat) : dumpJ ind (.obj []) = [lbrace, rbrace] := rfl

/-- Printing a non-empty object. -/
theorem dumpJ_obj_cons (ind : Nat) (kv : List Char × Json) (kvs : List (List Char × Json)) :
    dumpJ ind (.obj (kv :: kvs)) =
      lbrace :: '\n' :: (indentChars (ind + 2) ++ (dumpObjBody (ind + 2) (kv :: kvs)
        ++ '\n' :: (indentChars ind ++ [rbrace]))) := rfl

/-- Printing a one-item array body. -/
theorem dumpArrBody_one (ind : Nat) (x : Json) : dumpArrBody ind [x] = dumpJ ind x := rfl

/-- Printing a longer array body. -/
theorem dumpArrBody_cons (ind : Nat) (x y : Json) (ys : List Json) :
    dumpArrBody ind (x :: y :: ys) =
      dumpJ ind x ++ ',' :: '\n' :: (indentChars ind ++ dumpArrBody ind (y :: ys)) := rfl

/-- Printing a one-member object body. -/
theorem dumpObjBody_one (ind : Nat) (k : List Char) (v : Json) :
    dumpObjBody ind [(k, v)] = quoteStr k ++ ':' :: ' ' :: dumpJ ind v := rfl

/-- Printing a longer object body. -/
theorem dumpObjBody_cons (ind : Nat) (k : List Char) (v : Json) (kv2 : List Char × Json)
    (kvs : List (List Char × Json)) :
    dumpObjBody ind ((k, v) :: kv2 :: kvs) =
      quoteStr k ++ ':' :: ' ' :: dumpJ ind v
        ++ ',' :: '\n' :: (indentChars ind ++ dumpObjBody ind (kv2 :: kvs)) := rfl

/-- The first character of a printed integer: a minus sign or a digit, never
whitespace or a closing bracket. -/
theorem intChars_head (i : Int) :
    ∃ c t, intChars i = c :: t ∧ (c = '-' || isDig c) = true ∧
      isJsonWs c = false ∧ c ≠ ']' ∧ c ≠ rbrace := by
  by_cases hi : i < 0
  · refine ⟨'-', natChars i.natAbs, by simp [intChars, hi], by decide, by decide,
      by decide, by decide⟩
  · obtain ⟨hne, hdig, _, _⟩ := natChars_spec i.natAbs
    cases hc : natChars i.natAbs with
    | nil => exact absurd hc hne
    | cons c t =>
      have hcd := hdig c (by rw [hc]; simp)
      obtain ⟨f1, f2, f3, _⟩ := isDig_facts c hcd
      exact ⟨c, t, by simp [intChars, hi, hc], by simp [hcd], f1, f2, f3⟩

/-- The first character of any printed value is not whitespace and closes no
container. -/
theorem dumpJ_head (ind : Nat) (v : Json) :
    ∃ c t, dumpJ ind v = c :: t ∧ isJsonWs c = false ∧ c ≠ ']' ∧ c ≠ rbrace := by
  cases v with
  | null => exact ⟨'n', _, rfl, by decide, by decide, by decide⟩
  | bool b =>
    cases b with
    | false => exact ⟨'f', _, rfl, by decide, by decide, by decide⟩
    | true => exact ⟨'t', _, rfl, by decide, by decide, by decide⟩
  | num i =>
    obtain ⟨c, t, hct, _, h1, h2, h3⟩ := intChars_head i
    exact ⟨c, t, by rw [dumpJ_num, hct], h1, h2, h3⟩
  | str s => exact ⟨'"', _, rfl, by decide, by decide, by decide⟩
  | arr xs =>
    cases xs with
    | nil => exact ⟨'[', _, rfl, by decide, by decide, by decide⟩
    | cons x xs => exact ⟨'[', _, dumpJ_arr_cons ind x xs, by decide, by decide, by decide⟩
  | obj kvs =>
    cases kvs with
    | nil => exact ⟨lbrace, _, rfl, by decide, by decide, by decide⟩
    | cons kv kvs => exact ⟨lbrace, _, dumpJ_obj_cons ind kv kvs, by decide, by decide, by decide⟩

/-- A printed non-empty array body begins with the head of its first item. -/
theorem dumpArrBody_head (ind : Nat) (x : Json) (xs : List Json) (c : Char) (t : List Char)
    (h : dumpJ ind x = c :: t) :
    ∃ t2, dumpArrBody ind (x :: xs) = c :: t2 := by
  cases xs with
  | nil => exact ⟨t, by rw [dumpArrBody_one, h]⟩
  | cons y ys =>
    refine ⟨t ++ ',' :: '\n' :: (indentChars ind ++ dumpArrBody ind (y :: ys)), ?_⟩
    rw [dumpArrBody_cons, h]
    rfl

/-- A printed non-empty object body begins with the quote of its first key. -/
theorem dumpObjBody_head (ind : Nat) (k : List Char) (v : Json)
    (kvs : List (List Char × Json)) :
    ∃ t2, dumpObjBody ind ((k, v) :: kvs) = '"' :: t2 := by
  cases kvs with
  | nil =>
    refine ⟨escBody k ++ ['"'] ++ (':' :: ' ' :: dumpJ ind v), ?_⟩
    rw [dumpObjBody_one, quoteStr]
    simp
  | cons kv2 kvs2 =>
    refine ⟨escBody k ++ ['"'] ++ (':' :: ' ' :: dumpJ ind v
      ++ ',' :: '\n' :: (indentChars ind ++ dumpObjBody ind (kv2 :: kvs2))), ?_⟩
    rw [dumpObjBody_cons, quoteStr]
    simp

/-- A value stopper is a number stopper. -/
theorem stopOk_numStop (rest : List Char) (h : stopOk rest = true) :
    numStop rest = true := by
  cases rest with
  | nil => rfl
  | cons c t =>
    simp only [stopOk, Bool.or_eq_true, decide_eq_true_eq] at h
    rcases h with rfl | rfl <;> rfl

/-! ## The round trip: parsing a printed well-formed value recovers it -/

mutual
/-- Parsing a printed value (with any leading whitespace, enough fuel and a
stopper behind it) yields exactly that value. -/
theorem rt_val : ∀ (v : Json) (f ind : Nat) (ws rest : List Char),
    WfJson v → wsOnly ws → (dumpJ ind v).length < f → stopOk rest = true →
    parseVal f (ws ++ (dumpJ ind v ++ rest)) = some (v, rest)
  | .null, f, ind, ws, rest, _, hws, hf, _ => by
    cases f with
    | zero => exact absurd hf (Nat.not_lt_zero _)
    | succ f =>
      have hskip : skipWs (ws ++ (dumpJ ind Json.null ++ rest))
          = 'n' :: 'u' :: 'l' :: 'l' :: rest := by
        rw [skipWs_ws_append ws _ hws]
        exact skipWs_not_ws _ _ (by decide)
      exact parseVal_null_tok f _ rest hskip
  | .bool true, f, ind, ws, rest, _, hws, hf, _ => by
    cases f with
    | zero => exact absurd hf (Nat.not_lt_zero _)
    | succ f =>
      have hskip : skipWs (ws ++ (dumpJ ind (Json.bool true) ++ rest))
          = 't' :: 'r' :: 'u' :: 'e' :: rest := by
        rw [skipWs_ws_append ws _ hws]
        exact skipWs_not_ws _ _ (by decide)
      exact parseVal_true_tok f _ rest hskip
  | .bool false, f, ind, ws, rest, _, hws, hf, _ => by
    cases f with
    | zero => exact absurd hf (Nat.not_lt_zero _)
    | succ f =>
      have hskip : skipWs (ws ++ (dumpJ ind (Json.bool false) ++ rest))
          = 'f' :: 'a' :: 'l' :: 's' :: 'e' :: rest := by
        rw [skipWs_ws_append ws _ hws]
        exact skipWs_not_ws _ _ (by decide)
      exact parseVal_false_tok f _ rest hskip
  | .num i, f, ind, ws, rest, _, hws, hf, hstop => by
    cases f with
    | zero => exact absurd hf (Nat.not_lt_zero _)
    | succ f =>
      obtain ⟨c, t, hct, hnum, hnws, _, _⟩ := intChars_head i
      have harg : dumpJ ind (Json.num i) ++ rest = c :: (t ++ rest) := by
        rw [dumpJ_num, hct]
        rfl
      have hskip : skipWs (ws ++ (dumpJ ind (Json.num i) ++ rest)) = c :: (t ++ rest) := by
        rw [skipWs_ws_append ws _ hws, harg]
        exact skipWs_not_ws _ _ hnws
      rw [parseVal_num_tok f _ c (t ++ rest) hskip hnum]
      have hsi : scanInt (c :: (t ++ rest)) = some (i, rest) := by
        have hs := scanInt_intChars i rest (stopOk_numStop rest hstop)
        rw [hct] at hs
        simpa using hs
      rw [hsi]
      simp
  | .str s, f, ind, ws, rest, hwf, hws, hf, _ => by
    cases f with
    | zero => exact absurd hf (Nat.not_lt_zero _)
    | succ f =>
      have hgood : ∀ c ∈ s, goodChar c = true := by
        cases hwf with
        | str _ h => exact h
      have harg : dumpJ ind (Json.str s) ++ rest = '"' :: (escBody s ++ '"' :: rest) := by
        rw [dumpJ_str, quoteStr]
        simp
      have hskip : skipWs (ws ++ (dumpJ ind (Json.str s) ++ rest))
          = '"' :: (escBody s ++ '"' :: rest) := by
        rw [skipWs_ws_append ws _ hws, harg]
        exact skipWs_not_ws _ _ (by decide)
      rw [parseVal_str_tok f _ _ hskip, scanStr_escBody s hgood rest]
      simp
  | .arr [], f, ind, ws, rest, _, hws, hf, _ => by
    cases f with
    | zero => exact absurd hf (Nat.not_lt_zero _)
    | succ f =>
      have hskip : skipWs (ws ++ (dumpJ ind (Json.arr []) ++ rest)) = '[' :: (']' :: rest) := by
        rw [skipWs_ws_append ws _ hws]
        exact skipWs_not_ws _ _ (by decide)
      exact parseVal_arr_nil_tok f _ _ rest hskip (skipWs_not_ws ']' rest (by decide))
  | .arr (x :: xs), f, ind, ws, rest, hwf, hws, hf, _ => by
    cases f with
    | zero => exact absurd hf (Nat.not_lt_zero _)
    | succ f =>
      have hwfx : ∀ y ∈ x :: xs, WfJson y := by
        cases hwf with
        | arr _ h => exact h
      obtain ⟨c, t, hhead, hnws, hnbr, _⟩ := dumpJ_head (ind + 2) x
      obtain ⟨t2, hbody⟩ := dumpArrBody_head (ind + 2) x xs c t hhead
      have harg : dumpJ ind (Json.arr (x :: xs)) ++ rest
          = '[' :: (('\n' :: indentChars (ind + 2))
            ++ (dumpArrBody (ind + 2) (x :: xs)
              ++ ('\n' :: (indentChars ind ++ (']' :: rest))))) := by
        rw [dumpJ_arr_cons]
        simp
      have hskip1 : skipWs (ws ++ (dumpJ ind (Json.arr (x :: xs)) ++ rest))
          = '[' :: (('\n' :: indentChars (ind + 2))
            ++ (dumpArrBody (ind + 2) (x :: xs)
              ++ ('\n' :: (indentChars ind ++ (']' :: rest))))) := by
        rw [skipWs_ws_append ws _ hws, harg]
        exact skipWs_not_ws _ _ (by decide)
      have hskip2 : skipWs (('\n' :: indentChars (ind + 2))
            ++ (dumpArrBody (ind + 2) (x :: xs)
              ++ ('\n' :: (indentChars ind ++ (']' :: rest)))))
          = c :: (t2 ++ ('\n' :: (indentChars ind ++ (']' :: rest)))) := by
        rw [skipWs_ws_append _ _ (wsOnly_newline_cons _ (wsOnly_indentChars _)), hbody,
          List.cons_append]
        exact skipWs_not_ws _ _ hnws
      rw [parseVal_arr_tok f _ _ c _ hskip1 hskip2 hnbr]
      have hitems_arg : c :: (t2 ++ ('\n' :: (indentChars ind ++ (']' :: rest))))
          = dumpArrBody (ind + 2) (x :: xs) ++ ('\n' :: (indentChars ind ++ (']' :: rest))) := by
        rw [hbody, List.cons_append]
      rw [hitems_arg]
      have hfi : (dumpArrBody (ind + 2) (x :: xs)).length + 1 < f := by
        rw [dumpJ_arr_cons] at hf
        simp only [List.length_cons, List.length_append, indentChars,
          List.length_replicate, List.length_singleton] at hf
        omega
      have hrt := rt_items x xs f (ind + 2) ind [] rest hwfx wsOnly_nil hfi
      rw [List.nil_append] at hrt
      rw [hrt]
      simp
  | .obj [], f, ind, ws, rest, _, hws, hf, _ => by
    cases f with
    | zero => exact absurd hf (Nat.not_lt_zero _)
    | succ f =>
      have hskip : skipWs (ws ++ (dumpJ ind (Json.obj []) ++ rest))
          = lbrace :: (rbrace :: rest) := by
        rw [skipWs_ws_append ws _ hws]
        exact skipWs_not_ws _ _ (by decide)
      exact parseVal_obj_nil_tok f _ _ rest hskip (skipWs_not_ws rbrace rest (by decide))
  | .obj ((k, v) :: kvs), f, ind, ws, rest, hwf, hws, hf, _ => by
    cases f with
    | zero => exact absurd hf (Nat.not_lt_zero _)
    | succ f =>
      have hnd : (((k, v) :: kvs).map Prod.fst).Nodup := by
        cases hwf with
        | obj _ h _ _ => exact h
      have hmem : ∀ p ∈ (k, v) :: kvs, (∀ c ∈ p.1, goodChar c = true) ∧ WfJson p.2 := by
        cases hwf with
        | obj _ _ hk hv => exact fun p hp => ⟨hk p hp, hv p hp⟩
      obtain ⟨t2, hbody⟩ := dumpObjBody_head (ind + 2) k v kvs
      have harg : dumpJ ind (Json.obj ((k, v) :: kvs)) ++ rest
          = lbrace :: (('\n' :: indentChars (ind + 2))
            ++ (dumpObjBody (ind + 2) ((k, v) :: kvs)
              ++ ('\n' :: (indentChars ind ++ (rbrace :: rest))))) := by
        rw [dumpJ_obj_cons]
        simp
      have hskip1 : skipWs (ws ++ (dumpJ ind (Json.obj ((k, v) :: kvs)) ++ rest))
          = lbrace :: (('\n' :: indentChars (ind + 2))
            ++ (dumpObjBody (ind + 2) ((k, v) :: kvs)
              ++ ('\n' :: (indentChars ind ++ (rbrace :: rest))))) := by
        rw [skipWs_ws_append ws _ hws, harg]
        exact skipWs_not_ws _ _ (by decide)
      have hskip2 : skipWs (('\n' :: indentChars (ind + 2))
            ++ (dumpObjBody (ind + 2) ((k, v) :: kvs)
              ++ ('\n' :: (indentChars ind ++ (rbrace :: rest)))))
          = '"' :: (t2 ++ ('\n' :: (indentChars ind ++ (rbrace :: rest)))) := by
        rw [skipWs_ws_append _ _ (wsOnly_newline_cons _ (wsOnly_indentChars _)), hbody,
          List.cons_append]
        exact skipWs_not_ws _ _ (by decide)
      rw [parseVal_obj_tok f _ _ '"' _ hskip1 hskip2 (by decide)]
      have hpairs_arg : '"' :: (t2 ++ ('\n' :: (indentChars ind ++ (rbrace :: rest))))
          = dumpObjBody (ind + 2) ((k, v) :: kvs)
            ++ ('\n' :: (indentChars ind ++ (rbrace :: rest))) := by
        rw [hbody, List.cons_append]
      rw [hpairs_arg]
      have hfi : (dumpObjBody (ind + 2) ((k, v) :: kvs)).length + 1 < f := by
        rw [dumpJ_obj_cons] at hf
        simp only [List.length_cons, List.length_append, indentChars,
          List.length_replicate, List.length_singleton] at hf
        omega
      have hrt := rt_pairs (k, v) kvs f (ind + 2) ind [] rest hmem wsOnly_nil hfi
      rw [List.nil_append] at hrt
      rw [hrt]
      simp only [Option.map_some']
      rw [buildObj_self _ hnd]
  termination_by v _ _ _ _ _ _ _ _ => sizeOf v
  decreasing_by
    all_goals simp_wf

/-- Parsing a printed non-empty array body followed by the closing line
yields exactly the item list. -/
theorem rt_items : ∀ (x : Json) (xs : List Json) (f ind ind0 : Nat) (ws rest : List Char),
    (∀ y ∈ x :: xs, WfJson y) → wsOnly ws →
    (dumpArrBody ind (x :: xs)).length + 1 < f →
    parseItems f (ws ++ (dumpArrBody ind (x :: xs)
      ++ ('\n' :: (indentChars ind0 ++ (']' :: rest))))) = some (x :: xs, rest)
  | x, [], f, ind, ind0, ws, rest, hwf, hws, hf => by
    cases f with
    | zero => exact absurd hf (Nat.not_lt_zero _)
    | succ f =>
      rw [parseItems_succ]
      have hfx : (dumpJ ind x).length < f := by
        rw [dumpArrBody_one] at hf
        omega
      have hv := rt_val x f ind ws ('\n' :: (indentChars ind0 ++ (']' :: rest)))
        (hwf x (by simp)) hws hfx (by rfl)
      rw [dumpArrBody_one]
      have hsk : skipWs ('\n' :: (indentChars ind0 ++ (']' :: rest))) = ']' :: rest := by
        rw [show ('\n' :: (indentChars ind0 ++ (']' :: rest)))
            = ('\n' :: indentChars ind0) ++ (']' :: rest) by simp]
        rw [skipWs_ws_append _ _ (wsOnly_newline_cons _ (wsOnly_indentChars _))]
        exact skipWs_not_ws _ _ (by decide)
      simp only [hv, hsk]
      simp
  | x, y :: ys, f, ind, ind0, ws, rest, hwf, hws, hf => by
    cases f with
    | zero => exact absurd hf (Nat.not_lt_zero _)
    | succ f =>
      rw [parseItems_succ]
      have hlen : (dumpJ ind x).length + (dumpArrBody ind (y :: ys)).length + 2 + ind
          ≤ (dumpArrBody ind (x :: y :: ys)).length := by
        rw [dumpArrBody_cons]
        simp only [List.length_append, List.length_cons, indentChars, List.length_replicate]
        omega
      have hfx : (dumpJ ind x).length < f := by omega
      have hfy : (dumpArrBody ind (y :: ys)).length + 1 < f := by omega
      have harg : ws ++ (dumpArrBody ind (x :: y :: ys)
            ++ ('\n' :: (indentChars ind0 ++ (']' :: rest))))
          = ws ++ (dumpJ ind x ++ (',' :: ('\n' :: (indentChars ind
              ++ (dumpArrBody ind (y :: ys)
                ++ ('\n' :: (indentChars ind0 ++ (']' :: rest)))))))) := by
        rw [dumpArrBody_cons]
        simp
      rw [harg]
      have hv := rt_val x f ind ws (',' :: ('\n' :: (indentChars ind
          ++ (dumpArrBody ind (y :: ys) ++ ('\n' :: (indentChars ind0 ++ (']' :: rest)))))))
        (hwf x (by simp)) hws hfx (by rfl)
      have hsk2 : skipWs (',' :: ('\n' :: (indentChars ind
            ++ (dumpArrBody ind (y :: ys) ++ ('\n' :: (indentChars ind0 ++ (']' :: rest)))))))
          = ',' :: ('\n' :: (indentChars ind
            ++ (dumpArrBody ind (y :: ys) ++ ('\n' :: (indentChars ind0 ++ (']' :: rest)))))) :=
        skipWs_not_ws _ _ (by decide)
      have hrt := rt_items y ys f ind ind0 ('\n' :: indentChars ind) rest
        (fun z hz => hwf z (by simp [List.mem_cons.mp hz]))
        (wsOnly_newline_cons _ (wsOnly_indentChars _)) hfy
      have hrt2 : parseItems f ('\n' :: (indentChars ind ++ (dumpArrBody ind (y :: ys)
            ++ ('\n' :: (indentChars ind0 ++ (']' :: rest)))))) = some (y :: ys, rest) := by
        rw [show ('\n' :: (indentChars ind ++ (dumpArrBody ind (y :: ys)
              ++ ('\n' :: (indentChars ind0 ++ (']' :: rest))))))
            = ('\n' :: indentChars ind) ++ (dumpArrBody ind (y :: ys)
              ++ ('\n' :: (indentChars ind0 ++ (']' :: rest)))) by simp]
        exact hrt
      simp only [hv, hsk2, hrt2]
      simp
  termination_by x xs _ _ _ _ _ _ _ _ => 1 + sizeOf x + sizeOf xs
  decreasing_by
    all_goals simp_wf
    all_goals omega

/-- Parsing a printed non-empty object body followed by the closing line
yields exactly the member list. -/
theorem rt_pairs : ∀ (kv : List Char × Json) (kvs : List (List Char × Json))
    (f ind ind0 : Nat) (ws rest : List Char),
    (∀ p ∈ kv :: kvs, (∀ c ∈ p.1, goodChar c = true) ∧ WfJson p.2) → wsOnly ws →
    (dumpObjBody ind (kv :: kvs)).length + 1 < f →
    parsePairs f (ws ++ (dumpObjBody ind (kv :: kvs)
      ++ ('\n' :: (indentChars ind0 ++ (rbrace :: rest))))) = some (kv :: kvs, rest)
  | (k, v), [], f, ind, ind0, ws, rest, hwf, hws, hf => by
    cases f with
    | zero => exact absurd hf (Nat.not_lt_zero _)
    | succ f =>
      have hgoodk : ∀ c ∈ k, goodChar c = true := (hwf (k, v) (by simp)).1
      have hwfv : WfJson v := (hwf (k, v) (by simp)).2
      rw [parsePairs_succ]
      have harg : ws ++ (dumpObjBody ind [(k, v)]
            ++ ('\n' :: (indentChars ind0 ++ (rbrace :: rest))))
          = ws ++ ('"' :: (escBody k ++ ('"' :: (':' :: (' ' :: (dumpJ ind v
              ++ ('\n' :: (indentChars ind0 ++ (rbrace :: rest)))))))))  := by
        rw [dumpObjBody_one, quoteStr]
        simp
      rw [harg]
      have hskip : skipWs (ws ++ ('"' :: (escBody k ++ ('"' :: (':' :: (' ' :: (dumpJ ind v
            ++ ('\n' :: (indentChars ind0 ++ (rbrace :: rest))))))))))
          = '"' :: (escBody k ++ ('"' :: (':' :: (' ' :: (dumpJ ind v
            ++ ('\n' :: (indentChars ind0 ++ (rbrace :: rest)))))))) := by
        rw [skipWs_ws_append ws _ hws]
        exact skipWs_not_ws _ _ (by decide)
      have hscan : scanStr (escBody k ++ ('"' :: (':' :: (' ' :: (dumpJ ind v
            ++ ('\n' :: (indentChars ind0 ++ (rbrace :: rest))))))))
          = some (k, ':' :: (' ' :: (dumpJ ind v
            ++ ('\n' :: (indentChars ind0 ++ (rbrace :: rest)))))) :=
        scanStr_escBody k hgoodk _
      have hskc : skipWs (':' :: (' ' :: (dumpJ ind v
            ++ ('\n' :: (indentChars ind0 ++ (rbrace :: rest))))))
          = ':' :: (' ' :: (dumpJ ind v
            ++ ('\n' :: (indentChars ind0 ++ (rbrace :: rest))))) :=
        skipWs_not_ws _ _ (by decide)
      have hfv : (dumpJ ind v).length < f := by
        rw [dumpObjBody_one] at hf
        simp only [List.length_append, List.length_cons] at hf
        omega
      have hv0 := rt_val v f ind [' ']
        ('\n' :: (indentChars ind0 ++ (rbrace :: rest))) hwfv wsOnly_space hfv (by rfl)
      have hv : parseVal f (' ' :: (dumpJ ind v
            ++ ('\n' :: (indentChars ind0 ++ (rbrace :: rest)))))
          = some (v, '\n' :: (indentChars ind0 ++ (rbrace :: rest))) := by
        rw [show (' ' :: (dumpJ ind v ++ ('\n' :: (indentChars ind0 ++ (rbrace :: rest)))))
            = [' '] ++ (dumpJ ind v ++ ('\n' :: (indentChars ind0 ++ (rbrace :: rest)))) by simp]
        exact hv0
      have hsk : skipWs ('\n' :: (indentChars ind0 ++ (rbrace :: rest))) = rbrace :: rest := by
        rw [show ('\n' :: (indentChars ind0 ++ (rbrace :: rest)))
            = ('\n' :: indentChars ind0) ++ (rbrace :: rest) by simp]
        rw [skipWs_ws_append _ _ (wsOnly_newline_cons _ (wsOnly_indentChars _))]
        exact skipWs_not_ws _ _ (by decide)
      simp only [hskip, hscan, hskc, hv, hsk]
      simp [rbrace]
  | (k, v), kv2 :: kvs2, f, ind, ind0, ws, rest, hwf, hws, hf => by
    cases f with
    | zero => exact absurd hf (Nat.not_lt_zero _)
    | succ f =>
      have hgoodk : ∀ c ∈ k, goodChar c = true := (hwf (k, v) (by simp)).1
      have hwfv : WfJson v := (hwf (k, v) (by simp)).2
      have hlen : (dumpJ ind v).length + (dumpObjBody ind (kv2 :: kvs2)).length + 2
          ≤ (dumpObjBody ind ((k, v) :: kv2 :: kvs2)).length := by
        rw [dumpObjBody_cons]
        simp only [List.length_append, List.length_cons, indentChars, List.length_replicate,
          quoteStr]
        omega
      have hfv : (dumpJ ind v).length < f := by omega
      have hfp : (dumpObjBody ind (kv2 :: kvs2)).length + 1 < f := by omega
      rw [parsePairs_succ]
      have harg : ws ++ (dumpObjBody ind ((k, v) :: kv2 :: kvs2)
            ++ ('\n' :: (indentChars ind0 ++ (rbrace :: rest))))
          = ws ++ ('"' :: (escBody k ++ ('"' :: (':' :: (' ' :: (dumpJ ind v
              ++ (',' :: ('\n' :: (indentChars ind ++ (dumpObjBody ind (kv2 :: kvs2)
                ++ ('\n' :: (indentChars ind0 ++ (rbrace :: rest)))))))))))))  := by
        rw [dumpObjBody_cons, quoteStr]
        simp
      rw [harg]
      have hskip : skipWs (ws ++ ('"' :: (escBody k ++ ('"' :: (':' :: (' ' :: (dumpJ ind v
            ++ (',' :: ('\n' :: (indentChars ind ++ (dumpObjBody ind (kv2 :: kvs2)
              ++ ('\n' :: (indentChars ind0 ++ (rbrace :: rest))))))))))))))
          = '"' :: (escBody k ++ ('"' :: (':' :: (' ' :: (dumpJ ind v
            ++ (',' :: ('\n' :: (indentChars ind ++ (dumpObjBody ind (kv2 :: kvs2)
              ++ ('\n' :: (indentChars ind0 ++ (rbrace :: rest)))))))))))) := by
        rw [skipWs_ws_append ws _ hws]
        exact skipWs_not_ws _ _ (by decide)
      have hscan : scanStr (escBody k ++ ('"' :: (':' :: (' ' :: (dumpJ ind v
            ++ (',' :: ('\n' :: (indentChars ind ++ (dumpObjBody ind (kv2 :: kvs2)
              ++ ('\n' :: (indentChars ind0 ++ (rbrace :: rest))))))))))))
          = some (k, ':' :: (' ' :: (dumpJ ind v
            ++ (',' :: ('\n' :: (indentChars ind ++ (dumpObjBody ind (kv2 :: kvs2)
              ++ ('\n' :: (indentChars ind0 ++ (rbrace :: rest)))))))))) :=
        scanStr_escBody k hgoodk _
      have hskc : skipWs (':' :: (' ' :: (dumpJ ind v
            ++ (',' :: ('\n' :: (indentChars ind ++ (dumpObjBody ind (kv2 :: kvs2)
              ++ ('\n' :: (indentChars ind0 ++ (rbrace :: rest))))))))))
          = ':' :: (' ' :: (dumpJ ind v
            ++ (',' :: ('\n' :: (indentChars ind ++ (dumpObjBody ind (kv2 :: kvs2)
              ++ ('\n' :: (indentChars ind0 ++ (rbrace :: rest))))))))) :=
        skipWs_not_ws _ _ (by decide)
      have hv0 := rt_val v f ind [' ']
        (',' :: ('\n' :: (indentChars ind ++ (dumpObjBody ind (kv2 :: kvs2)
          ++ ('\n' :: (indentChars ind0 ++ (rbrace :: rest)))))))
        hwfv wsOnly_space hfv (by rfl)
      have hv : parseVal f (' ' :: (dumpJ ind v
            ++ (',' :: ('\n' :: (indentChars ind ++ (dumpObjBody ind (kv2 :: kvs2)
              ++ ('\n' :: (indentChars ind0 ++ (rbrace :: rest)))))))))
          = some (v, ',' :: ('\n' :: (indentChars ind ++ (dumpObjBody ind (kv2 :: kvs2)
              ++ ('\n' :: (indentChars ind0 ++ (rbrace :: rest))))))) := by
        rw [show (' ' :: (dumpJ ind v ++ (',' :: ('\n' :: (indentChars ind
              ++ (dumpObjBody ind (kv2 :: kvs2)
                ++ ('\n' :: (indentChars ind0 ++ (rbrace :: rest)))))))))
            = [' '] ++ (dumpJ ind v ++ (',' :: ('\n' :: (indentChars ind
              ++ (dumpObjBody ind (kv2 :: kvs2)
                ++ ('\n' :: (indentChars ind0 ++ (rbrace :: rest)))))))) by simp]
        exact hv0
      have hskm : skipWs (',' :: ('\n' :: (indentChars ind ++ (dumpObjBody ind (kv2 :: kvs2)
            ++ ('\n' :: (indentChars ind0 ++ (rbrace :: rest)))))))
          = ',' :: ('\n' :: (indentChars ind ++ (dumpObjBody ind (kv2 :: kvs2)
            ++ ('\n' :: (indentChars ind0 ++ (rbrace :: rest)))))) :=
        skipWs_not_ws _ _ (by decide)
      have hrt := rt_pairs kv2 kvs2 f ind ind0 ('\n' :: indentChars ind) rest
        (fun p hp => hwf p (by simp [List.mem_cons.mp hp]))
        (wsOnly_newline_cons _ (wsOnly_indentChars _)) hfp
      have hrt2 : parsePairs f ('\n' :: (indentChars ind ++ (dumpObjBody ind (kv2 :: kvs2)
            ++ ('\n' :: (indentChars ind0 ++ (rbrace :: rest))))))
          = some (kv2 :: kvs2, rest) := by
        rw [show ('\n' :: (indentChars ind ++ (dumpObjBody ind (kv2 :: kvs2)
              ++ ('\n' :: (indentChars ind0 ++ (rbrace :: rest))))))
            = ('\n' :: indentChars ind) ++ (dumpObjBody ind (kv2 :: kvs2)
              ++ ('\n' :: (indentChars ind0 ++ (rbrace :: rest)))) by simp]
        exact hrt
      simp only [hskip, hscan, hskc, hv, hskm, hrt2]
      simp
  termination_by kv kvs _ _ _ _ _ _ _ _ => 1 + sizeOf kv + sizeOf kvs
  decreasing_by
    all_goals simp_wf
    all_goals omega
end

/-- Parsing the indented dump of a well-formed value yields it back. -/
theorem json_roundtrip (v : Json) (h : WfJson v) :
    json_loads (json_dumps_indent2 v) = some v := by
  rw [json_loads, json_dumps_indent2]
  have hdata : (String.mk (dumpJ 0 v)).data = dumpJ 0 v := rfl
  rw [hdata]
  have hv := rt_val v ((dumpJ 0 v).length + 1) 0 [] [] h wsOnly_nil (by omega) (by rfl)
  rw [List.nil_append, List.append_nil] at hv
  rw [hv]
  rfl

/-! ## Marker search lemmas -/

/-- An occurrence at a successor index in a cons is an occurrence in the
tail. -/
theorem occursAt_cons_succ (pat : List Char) (c : Char) (t : List Char) (i : Nat) :
    occursAt pat (c :: t) (i + 1) ↔ occursAt pat t i := by
  rw [occursAt, occursAt, List.drop_succ_cons]

/-- An occurrence at index zero is a prefix. -/
theorem occursAt_zero (pat cs : List Char) : occursAt pat cs 0 ↔ pat <+: cs := by
  rw [occursAt, List.drop_zero]

/-- A found first index is an occurrence. -/
theorem findFirstIdx_occurs : ∀ (cs : List Char) (pat : List Char) (i : Nat),
    findFirstIdx pat cs = some i → occursAt pat cs i
  | [], pat, i, h => by
    rw [findFirstIdx] at h
    split at h
    · injection h with h
      subst h
      rw [occursAt_zero]
      exact List.isPrefixOf_iff_prefix.mp (by assumption)
    · exact absurd h (by simp)
  | c :: t, pat, i, h => by
    rw [findFirstIdx] at h
    split at h
    · injection h with h
      subst h
      rw [occursAt_zero]
      exact List.isPrefixOf_iff_prefix.mp (by assumption)
    · cases hrec : findFirstIdx pat t with
      | none => simp only [hrec, Option.map_none'] at h; exact absurd h (by simp)
      | some j =>
        simp only [hrec, Option.map_some'] at h
        injection h with h
        subst h
        rw [occursAt_cons_succ]
        exact findFirstIdx_occurs t pat j hrec

/-- A found first index is the least occurrence. -/
theorem findFirstIdx_least : ∀ (cs : List Char) (pat : List Char) (i : Nat),
    findFirstIdx pat cs = some i → ∀ j < i, ¬occursAt pat cs j
  | [], pat, i, h => by
    rw [findFirstIdx] at h
    split at h
    · injection h with h
      subst h
      omega
    · exact absurd h (by simp)
  | c :: t, pat, i, h => by
    rw [findFirstIdx] at h
    split at h
    · injection h with h
      subst h
      omega
    · cases hrec : findFirstIdx pat t with
      | none => simp only [hrec, Option.map_none'] at h; exact absurd h (by simp)
      | some j0 =>
        simp only [hrec, Option.map_some'] at h
        injection h with h
        subst h
        intro j hj
        cases j with
        | zero =>
          rw [occursAt_zero]
          intro hpre
          exact absurd (List.isPrefixOf_iff_prefix.mpr hpre) (by assumption)
        | succ j =>
          rw [occursAt_cons_succ]
          exact findFirstIdx_least t pat j0 hrec j (by omega)

/-- An occurrence below the length makes the first search succeed; stated
contrapositively: a failed search leaves no occurrence anywhere. -/
theorem findFirstIdx_none : ∀ (cs : List Char) (pat : List Char),
    findFirstIdx pat cs = none → ∀ i, ¬occursAt pat cs i
  | [], pat, h, i => by
    rw [findFirstIdx] at h
    split at h
    · exact absurd h (by simp)
    · rw [occursAt]
      intro hpre
      have : pat <+: [] := by
        have hd : List.drop i ([] : List Char) = [] := List.drop_nil
        rw [hd] at hpre
        exact hpre
      exact absurd (List.isPrefixOf_iff_prefix.mpr this) (by assumption)
  | c :: t, pat, h, i => by
    rw [findFirstIdx] at h
    split at h
    · exact absurd h (by simp)
    · cases hrec : findFirstIdx pat t with
      | none =>
        cases i with
        | zero =>
          rw [occursAt_zero]
          intro hpre
          exact absurd (List.isPrefixOf_iff_prefix.mpr hpre) (by assumption)
        | succ i =>
          rw [occursAt_cons_succ]
          exact findFirstIdx_none t pat hrec i
      | some j => simp only [hrec, Option.map_some'] at h; exact absurd h (by simp)

/-- The first-occurrence search is complete: the least occurrence is found. -/
theorem findFirstIdx_spec (cs pat : List Char) (i : Nat)
    (hocc : occursAt pat cs i) (hleast : ∀ j < i, ¬occursAt pat cs j) :
    findFirstIdx pat cs = some i := by
  cases hf : findFirstIdx pat cs with
  | none => exact absurd hocc (findFirstIdx_none cs pat hf i)
  | some j =>
    have hjo := findFirstIdx_occurs cs pat j hf
    have hjl := findFirstIdx_least cs pat j hf
    by_cases hij : i = j
    · rw [hij]
    · rcases Nat.lt_or_ge j i with hlt | hge
      · exact absurd hjo (hleast j hlt)
      · exact absurd hocc (hjl i (by omega))

/-- A found last index is an occurrence. -/
theorem findLastAux_occurs : ∀ (cs : List Char) (pat : List Char) (i : Nat),
    findLastAux pat cs = some i → occursAt pat cs i
  | [], pat, i, h => by
    rw [findLastAux] at h
    split at h
    · injection h with h
      subst h
      rw [occursAt_zero]
      exact List.isPrefixOf_iff_prefix.mp (by assumption)
    · exact absurd h (by simp)
  | c :: t, pat, i, h => by
    rw [findLastAux] at h
    cases hrec : findLastAux pat t with
    | some j =>
      simp only [hrec] at h
      injection h with h
      subst h
      rw [occursAt_cons_succ]
      exact findLastAux_occurs t pat j hrec
    | none =>
      simp only [hrec] at h
      split at h
      · injection h with h
        subst h
        rw [occursAt_zero]
        exact List.isPrefixOf_iff_prefix.mp (by assumption)
      · exact absurd h (by simp)

/-- A failed last search leaves no occurrence. -/
theorem findLastAux_none : ∀ (cs : List Char) (pat : List Char),
    findLastAux pat cs = none → ∀ i, ¬occursAt pat cs i
  | [], pat, h, i => by
    rw [findLastAux] at h
    split at h
    · exact absurd h (by simp)
    · rw [occursAt]
      intro hpre
      have : pat <+: [] := by
        have hd : List.drop i ([] : List Char) = [] := List.drop_nil
        rw [hd] at hpre
        exact hpre
      exact absurd (List.isPrefixOf_iff_prefix.mpr this) (by assumption)
  | c :: t, pat, h, i => by
    rw [findLastAux] at h
    cases hrec : findLastAux pat t with
    | some j => simp only [hrec] at h; exact absurd h (by simp)
    | none =>
      simp only [hrec] at h
      split at h
      · exact absurd h (by simp)
      · cases i with
        | zero =>
          rw [occursAt_zero]
          intro hpre
          exact absurd (List.isPrefixOf_iff_prefix.mpr hpre) (by assumption)
        | succ i =>
          rw [occursAt_cons_succ]
          exact findLastAux_none t pat hrec i

/-- A found last index of a non-empty pattern is the greatest occurrence. -/
theorem findLastAux_greatest : ∀ (cs : List Char) (pat : List Char) (i : Nat),
    pat ≠ [] → findLastAux pat cs = some i → ∀ j, i < j → ¬occursAt pat cs j
  | [], pat, i, hpat, h => by
    rw [findLastAux] at h
    split at h
    · rename_i hp
      exact absurd (List.prefix_nil.mp (List.isPrefixOf_iff_prefix.mp hp)) hpat
    · exact absurd h (by simp)
  | c :: t, pat, i, hpat, h => by
    rw [findLastAux] at h
    cases hrec : findLastAux pat t with
    | some j0 =>
      simp only [hrec] at h
      injection h with h
      subst h
      intro j hj
      cases j with
      | zero => omega
      | succ j =>
        rw [occursAt_cons_succ]
        exact findLastAux_greatest t pat j0 hpat hrec j (by omega)
    | none =>
      simp only [hrec] at h
      split at h
      · injection h with h
        subst h
        intro j hj
        cases j with
        | zero => omega
        | succ j =>
          rw [occursAt_cons_succ]
          exact findLastAux_none t pat hrec j
      · exact absurd h (by simp)

/-- The last-occurrence search is complete: the greatest occurrence is
found. -/
theorem findLastAux_spec (cs pat : List Char) (i : Nat) (hpat : pat ≠ [])
    (hocc : occursAt pat cs i) (hgreat : ∀ j, i < j → ¬occursAt pat cs j) :
    findLastAux pat cs = some i := by
  cases hf : findLastAux pat cs with
  | none => exact absurd hocc (findLastAux_none cs pat hf i)
  | some j =>
    have hjo := findLastAux_occurs cs pat j hf
    have hjg := findLastAux_greatest cs pat j hpat hf
    by_cases hij : i = j
    · rw [hij]
    · rcases Nat.lt_or_ge i j with hlt | hge
      · exact absurd hjo (hgreat j hlt)
      · exact absurd hocc (hjg i (by omega))

/-- Occurrences in a dropped suffix correspond to shifted occurrences. -/
theorem occursAt_drop (pat cs : List Char) (k j : Nat) :
    occursAt pat (cs.drop k) j ↔ occursAt pat cs (k + j) := by
  rw [occursAt, occursAt, List.drop_drop]

/-- The bounded last search finds the greatest occurrence at or beyond the
bound. -/
theorem findLastIdxFrom_spec (pat cs : List Char) (k i : Nat) (hpat : pat ≠ [])
    (hk : k ≤ i) (hocc : occursAt pat cs i) (hgreat : ∀ j, i < j → ¬occursAt pat cs j) :
    findLastIdxFrom pat cs k = some i := by
  rw [findLastIdxFrom]
  have haux : findLastAux pat (cs.drop k) = some (i - k) := by
    refine findLastAux_spec (cs.drop k) pat (i - k) hpat ?_ ?_
    · rw [occursAt_drop]
      have : k + (i - k) = i := by omega
      rw [this]
      exact hocc
    · intro j hj
      rw [occursAt_drop]
      exact hgreat (k + j) (by omega)
  rw [haux]
  simp only [Option.map_some']
  congr 1
  omega

/-- A failed bounded last search means no occurrence at or beyond the
bound. -/
theorem findLastIdxFrom_none (pat cs : List Char) (k : Nat)
    (h : findLastIdxFrom pat cs k = none) : ∀ j, k ≤ j → ¬occursAt pat cs j := by
  intro j hj
  rw [findLastIdxFrom] at h
  cases haux : findLastAux pat (cs.drop k) with
  | some i => rw [haux] at h; exact absurd h (by simp)
  | none =>
    have := findLastAux_none (cs.drop k) pat haux (j - k)
    rw [occursAt_drop] at this
    have hkj : k + (j - k) = j := by omega
    rw [hkj] at this
    exact this

/-- A successful bounded last search is an occurrence at or beyond the
bound. -/
theorem findLastIdxFrom_occurs (pat cs : List Char) (k j : Nat)
    (h : findLastIdxFrom pat cs k = some j) : occursAt pat cs j ∧ k ≤ j := by
  rw [findLastIdxFrom] at h
  cases haux : findLastAux pat (cs.drop k) with
  | none => rw [haux] at h; exact absurd h (by simp)
  | some j0 =>
    simp only [haux, Option.map_some'] at h
    injection h with h
    subst h
    constructor
    · have := findLastAux_occurs (cs.drop k) pat j0 haux
      rw [occursAt_drop] at this
      have hc : k + j0 = j0 + k := by omega
      rw [hc] at this
      exact this
    · omega

/-! ## The extraction function characterised -/

/-- When the open marker occurs (first at `i`) and the close marker occurs at
or after the end of the open marker (last such occurrence starting at `j`),
the greedy extraction takes exactly the characters from `i` through the end
of that last close marker. -/
theorem extractIntermediate_both (s : String) (i j : Nat)
    (hio : occursAt openMarker s.data i)
    (hileast : ∀ i2 < i, ¬occursAt openMarker s.data i2)
    (hjo : occursAt closeMarker s.data j)
    (hjk : i + openMarker.length ≤ j)
    (hjgreat : ∀ j2, j < j2 → ¬occursAt closeMarker s.data j2) :
    extractIntermediate s = ⟨(s.data.drop i).take (j + closeMarker.length - i)⟩ := by
  have h1 := findFirstIdx_spec s.data openMarker i hio hileast
  have h2 := findLastIdxFrom_spec closeMarker s.data (i + openMarker.length) j
    (by simp [closeMarker]) hjk hjo hjgreat
  rw [extractIntermediate]
  simp only [h1, h2]

/-- When the open marker does not occur at all, the extraction returns the
whole output. -/
theorem extractIntermediate_no_open (s : String)
    (h : ∀ i, ¬occursAt openMarker s.data i) : extractIntermediate s = s := by
  cases hf : findFirstIdx openMarker s.data with
  | none => rw [extractIntermediate]; simp only [hf]
  | some i => exact absurd (findFirstIdx_occurs s.data openMarker i hf) (h i)

/-- When the close marker does not occur at all, the extraction returns the
whole output. -/
theorem extractIntermediate_no_close (s : String)
    (h : ∀ j, ¬occursAt closeMarker s.data j) : extractIntermediate s = s := by
  cases hf : findFirstIdx openMarker s.data with
  | none => rw [extractIntermediate]; simp only [hf]
  | some i =>
    cases hl : findLastIdxFrom closeMarker s.data (i + openMarker.length) with
    | none => rw [extractIntermediate]; simp only [hf, hl]
    | some j =>
      exact absurd (findLastIdxFrom_occurs closeMarker s.data _ j hl).1 (h j)

/-! ## Chain unfolding lemmas -/

/-- When Stage 1 fails (no text, empty text, or unparseable text), the chain
stops after the first call with no result. -/
theorem chain_stage1_fail (ex : Executor)
    (h : run_gemini_stage ex.stage1 = none ∨ run_gemini_stage ex.stage1 = some "" ∨
      ∃ s, run_gemini_stage ex.stage1 = some s ∧ s ≠ "" ∧ json_loads s = none) :
    run_financial_analysis_chain ex = (none, [(1, STAGE_1_PROMPT)]) := by
  rcases h with h | h | ⟨s, h1, h2, h3⟩
  · rw [run_financial_analysis_chain]
    simp only [h]
  · rw [run_financial_analysis_chain]
    simp only [h]
    simp
  · rw [run_financial_analysis_chain]
    simp only [h1, h3, if_neg h2]

/-- When Stage 1 succeeds and parses, the chain continues with the canonical
re-serialisation embedded in the Stage-2 prompt. -/
theorem chain_unfold_stage2 (ex : Executor) (s : String) (v : Json)
    (h1 : run_gemini_stage ex.stage1 = some s) (h2 : ¬s = "")
    (h3 : json_loads s = some v) :
    run_financial_analysis_chain ex =
      (match run_gemini_stage (ex.stage2 (formatStage2 (json_dumps_indent2 v))) with
       | none => (none, [(1, STAGE_1_PROMPT), (2, formatStage2 (json_dumps_indent2 v))])
       | some s2 =>
         if s2 = "" then (none, [(1, STAGE_1_PROMPT), (2, formatStage2 (json_dumps_indent2 v))])
         else
           match run_gemini_stage (ex.stage3 (stage3_full_prompt (json_dumps_indent2 v)
               (extractIntermediate s2))) with
           | none => (none, [(1, STAGE_1_PROMPT), (2, formatStage2 (json_dumps_indent2 v)),
               (3, stage3_full_prompt (json_dumps_indent2 v) (extractIntermediate s2))])
           | some s3 =>
             if s3 = "" then (none, [(1, STAGE_1_PROMPT), (2, formatStage2 (json_dumps_indent2 v)),
                 (3, stage3_full_prompt (json_dumps_indent2 v) (extractIntermediate s2))])
             else (some (s3, json_dumps_indent2 v, s2),
                 [(1, STAGE_1_PROMPT), (2, formatStage2 (json_dumps_indent2 v)),
                  (3, stage3_full_prompt (json_dumps_indent2 v) (extractIntermediate s2))])) := by
  rw [run_financial_analysis_chain]
  simp only [h1, h3, if_neg h2]
  rfl

/-- Whenever Stage 1 succeeds and parses, the second stage is invoked with
the canonical artifact embedded in its prompt. -/
theorem stage2_invoked (ex : Executor) (s : String) (v : Json)
    (h1 : run_gemini_stage ex.stage1 = some s) (h2 : ¬s = "")
    (h3 : json_loads s = some v) :
    (2, formatStage2 (json_dumps_indent2 v)) ∈ (run_financial_analysis_chain ex).2 := by
  rw [chain_unfold_stage2 ex s v h1 h2 h3]
  cases ho2 : run_gemini_stage (ex.stage2 (formatStage2 (json_dumps_indent2 v))) with
  | none => simp
  | some s2 =>
    by_cases hs2 : s2 = ""
    · simp [hs2]
    · simp only [if_neg hs2]
      cases ho3 : run_gemini_stage (ex.stage3 (stage3_full_prompt (json_dumps_indent2 v)
          (extractIntermediate s2))) with
      | none => simp
      | some s3 =>
        by_cases hs3 : s3 = ""
        · simp [hs3]
        · simp [if_neg hs3]

/-- The trace of any chain run is one of the three prefixes of the full
stage sequence, and a run that returns a result ran all three stages. -/
theorem chain_trace_shape (ex : Executor) :
    (stagesInvoked ex = [1] ∨ stagesInvoked ex = [1, 2] ∨ stagesInvoked ex = [1, 2, 3]) ∧
    ((run_financial_analysis_chain ex).1.isSome → stagesInvoked ex = [1, 2, 3]) := by
  rw [stagesInvoked]
  cases ho1 : run_gemini_stage ex.stage1 with
  | none =>
    rw [chain_stage1_fail ex (Or.inl ho1)]
    simp
  | some s =>
    by_cases hs : s = ""
    · rw [chain_stage1_fail ex (Or.inr (Or.inl (by rw [ho1, hs])))]
      simp
    · cases hl : json_loads s with
      | none =>
        rw [chain_stage1_fail ex (Or.inr (Or.inr ⟨s, ho1, hs, hl⟩))]
        simp
      | some v =>
        rw [chain_unfold_stage2 ex s v ho1 hs hl]
        cases ho2 : run_gemini_stage (ex.stage2 (formatStage2 (json_dumps_indent2 v))) with
        | none => simp
        | some s2 =>
          by_cases hs2 : s2 = ""
          · simp [hs2]
          · simp only [if_neg hs2]
            cases ho3 : run_gemini_stage (ex.stage3 (stage3_full_prompt (json_dumps_indent2 v)
                (extractIntermediate s2))) with
            | none => simp
            | some s3 =>
              by_cases hs3 : s3 = ""
              · simp [hs3]
              · simp [if_neg hs3]

/-! ## The claims -/

set_option maxRecDepth 8000 in
/-- Claim C1, counterexample: a Stage-1 output that is valid JSON with a
wrong-typed field (revenue_current_period bound to the string N/A) does not
make the parse fail: json.loads succeeds, Stage 2 is invoked, and the chain
returns a result, contrary to the claimed transition to FAILED before
Stage 2. -/
theorem claim_C1_counterexample :
    json_loads c1_stage1_output
      = some (.obj [("revenue_current_period".data, .str "N/A".data)]) ∧
    2 ∈ stagesInvoked ex_c1 ∧
    (run_financial_analysis_chain ex_c1).1.isSome = true := by
  refine ⟨rfl, by decide, by decide⟩

/-- Claim C1, amended: for a non-empty Stage-1 executor output, the chain
returns no result with Stage 2 never invoked exactly when the output does
not parse as syntactically valid JSON; field names and types are not
checked, so a wrong-typed field does not abort the chain. -/
theorem claim_C1_amended (ex : Executor) (s : String)
    (h1 : run_gemini_stage ex.stage1 = some s) (h2 : s ≠ "") :
    ((run_financial_analysis_chain ex).1 = none ∧ 2 ∉ stagesInvoked ex)
      ↔ json_loads s = none := by
  constructor
  · intro hand
    cases hl : json_loads s with
    | some v =>
      have hm := stage2_invoked ex s v h1 h2 hl
      have h2mem : 2 ∈ stagesInvoked ex := by
        rw [stagesInvoked]
        exact List.mem_map_of_mem Prod.fst hm
      exact absurd h2mem hand.2
    | none => rfl
  · intro hl
    have hfail := chain_stage1_fail ex (Or.inr (Or.inr ⟨s, h1, h2, hl⟩))
    constructor
    · rw [hfail]
    · rw [stagesInvoked, hfail]
      decide

/-- Claim C1, amended, witness at a concrete unparseable output. -/
theorem claim_C1_amended_witness :
    (run_financial_analysis_chain ex_c1_unparsed).1 = none ∧
    2 ∉ stagesInvoked ex_c1_unparsed :=
  (claim_C1_amended ex_c1_unparsed "not json" rfl (by decide)).mpr rfl

/-- Claim C2, counterexample: on an output holding the close marker twice,
the greedy regex does not stop at the first close marker after the open
marker.  The first open marker occurs at index 1 and the first close marker
after it at index 20, so the claimed artifact is `c2_first_close_claim`, but
the extraction returns a longer string. -/
theorem claim_C2_counterexample :
    openMarker.isPrefixOf (c2_sample.data.drop 1) = true ∧
    closeMarker.isPrefixOf (c2_sample.data.drop 20) = true ∧
    c2_first_close_claim.data = (c2_sample.data.drop 1).take (20 + closeMarker.length - 1) ∧
    extractIntermediate c2_sample ≠ c2_first_close_claim := by
  refine ⟨rfl, rfl, rfl, by decide⟩

/-- Claim C2, amended: when both markers occur in order, the extracted
artifact runs from the first occurrence of the open marker to the end of the
last occurrence of the close marker that starts at or after the end of the
open marker (the regex quantifier is greedy), both markers included. -/
theorem claim_C2_amended (s : String) (i j : Nat)
    (hio : occursAt openMarker s.data i)
    (hileast : ∀ i2 < i, ¬occursAt openMarker s.data i2)
    (hjo : occursAt closeMarker s.data j)
    (hjk : i + openMarker.length ≤ j)
    (hjgreat : ∀ j2, j < j2 → ¬occursAt closeMarker s.data j2) :
    extractIntermediate s = ⟨(s.data.drop i).take (j + closeMarker.length - i)⟩ :=
  extractIntermediate_both s i j hio hileast hjo hjk hjgreat

/-- Claim C2, amended, witness on the two-close-marker sample: the match
runs to the last close marker, at index 45. -/
theorem claim_C2_amended_witness :
    extractIntermediate c2_sample
      = ⟨(c2_sample.data.drop 1).take (45 + closeMarker.length - 1)⟩ := by
  have hf : findFirstIdx openMarker c2_sample.data = some 1 := rfl
  have hl : findLastAux closeMarker c2_sample.data = some 45 := rfl
  exact claim_C2_amended c2_sample 1 45
    (findFirstIdx_occurs _ _ _ hf) (findFirstIdx_least _ _ _ hf)
    (findLastAux_occurs _ _ _ hl) (by decide)
    (findLastAux_greatest _ _ _ (by decide) hl)

/-- Claim C3: when the Stage-1 output is valid JSON carrying every required
field name, the chain proceeds to Stage 2 with the canonical indented
re-serialisation embedded in the prompt, and parsing that canonical form
yields the same value as parsing the raw output (round trip). -/
theorem claim_C3 (ex : Executor) (s : String) (v : Json)
    (h1 : run_gemini_stage ex.stage1 = some s) (h2 : s ≠ "")
    (h3 : json_loads s = some v) (_h4 : hasRequiredFields v = true) :
    (2, formatStage2 (json_dumps_indent2 v)) ∈ (run_financial_analysis_chain ex).2 ∧
    json_loads (json_dumps_indent2 v) = some v :=
  ⟨stage2_invoked ex s v h1 h2 h3, json_roundtrip v (json_loads_sound s v h3)⟩

set_option maxRecDepth 100000 in
/-- Claim C3, witness at a Stage-1 output carrying all 12 fields. -/
theorem claim_C3_witness :
    (2, formatStage2 (json_dumps_indent2 c3_value)) ∈ (run_financial_analysis_chain ex_c3).2 ∧
    json_loads (json_dumps_indent2 c3_value) = some c3_value :=
  claim_C3 ex_c3 c3_stage1_output c3_value rfl (by decide) rfl rfl

/-- Claim C4: if Stage 1 fails (no text, empty text, or unparseable text),
the chain returns no result and stops after the single Stage-1 invocation;
and whenever a result is returned, all three stages ran, so no partial
result is ever produced. -/
theorem claim_C4 (ex : Executor) :
    ((run_gemini_stage ex.stage1 = none ∨ run_gemini_stage ex.stage1 = some "" ∨
        ∃ s, run_gemini_stage ex.stage1 = some s ∧ s ≠ "" ∧ json_loads s = none) →
      (run_financial_analysis_chain ex).1 = none ∧ stagesInvoked ex = [1]) ∧
    ((run_financial_analysis_chain ex).1.isSome = true → stagesInvoked ex = [1, 2, 3]) := by
  constructor
  · intro h
    have hfail := chain_stage1_fail ex h
    constructor
    · rw [hfail]
    · rw [stagesInvoked, hfail]
      rfl
  · exact (chain_trace_shape ex).2

/-- Claim C4, witness at an executor whose Stage-1 call raises a provider
error. -/
theorem claim_C4_witness :
    (run_financial_analysis_chain ex_c4).1 = none ∧ stagesInvoked ex_c4 = [1] :=
  (claim_C4 ex_c4).1 (Or.inl rfl)

/-- Claim C5: when a marker is absent from a successful Stage-2 output, the
extraction is not an error: the artifact is the whole raw output, and the
chain proceeds to Stage 3 with that artifact embedded in its prompt. -/
theorem claim_C5 (ex : Executor) (s s2 : String) (v : Json)
    (h1 : run_gemini_stage ex.stage1 = some s) (h2 : s ≠ "")
    (h3 : json_loads s = some v)
    (h4 : run_gemini_stage (ex.stage2 (formatStage2 (json_dumps_indent2 v))) = some s2)
    (h5 : s2 ≠ "")
    (h6 : (∀ i, ¬occursAt openMarker s2.data i) ∨ (∀ j, ¬occursAt closeMarker s2.data j)) :
    extractIntermediate s2 = s2 ∧
    (3, stage3_full_prompt (json_dumps_indent2 v) s2) ∈ (run_financial_analysis_chain ex).2 := by
  have hext : extractIntermediate s2 = s2 := by
    rcases h6 with h | h
    · exact extractIntermediate_no_open s2 h
    · exact extractIntermediate_no_close s2 h
  refine ⟨hext, ?_⟩
  rw [chain_unfold_stage2 ex s v h1 h2 h3]
  simp only [h4, if_neg h5, hext]
  cases ho3 : run_gemini_stage (ex.stage3 (stage3_full_prompt (json_dumps_indent2 v) s2)) with
  | none => simp
  | some s3 =>
    by_cases hs3 : s3 = ""
    · simp [hs3]
    · simp [if_neg hs3]

/-- Claim C5, witness at a Stage-2 output with an open marker but no close
marker. -/
theorem claim_C5_witness :
    extractIntermediate "<Chain_of_Thought>unfinished reasoning"
      = "<Chain_of_Thought>unfinished reasoning" ∧
    (3, stage3_full_prompt (json_dumps_indent2 (.obj []))
        "<Chain_of_Thought>unfinished reasoning")
      ∈ (run_financial_analysis_chain ex_c5).2 :=
  claim_C5 ex_c5 "\x7b\x7d" "<Chain_of_Thought>unfinished reasoning" (.obj [])
    rfl (by decide) rfl rfl (by decide)
    (Or.inr (findFirstIdx_none _ closeMarker rfl))

/-- Claim C6: a provider error in a model call is caught and surfaced as an
absent result; a Stage-1 error aborts the chain after one invocation, a
Stage-2 error aborts it after two, a Stage-3 error aborts it after three
with no result (no partial triple is returned), and every run invokes each
stage at most once, in order, with no retry. -/
theorem claim_C6 :
    (∀ e : String, run_gemini_stage (Except.error e) = none) ∧
    (∀ (ex : Executor) (e : String), ex.stage1 = Except.error e →
      (run_financial_analysis_chain ex).1 = none ∧ stagesInvoked ex = [1]) ∧
    (∀ (ex : Executor) (s : String) (v : Json) (e : String),
      run_gemini_stage ex.stage1 = some s → s ≠ "" → json_loads s = some v →
      ex.stage2 (formatStage2 (json_dumps_indent2 v)) = Except.error e →
      (run_financial_analysis_chain ex).1 = none ∧ stagesInvoked ex = [1, 2]) ∧
    (∀ (ex : Executor) (s s2 : String) (v : Json) (e : String),
      run_gemini_stage ex.stage1 = some s → s ≠ "" → json_loads s = some v →
      run_gemini_stage (ex.stage2 (formatStage2 (json_dumps_indent2 v))) = some s2 →
      s2 ≠ "" →
      ex.stage3 (stage3_full_prompt (json_dumps_indent2 v) (extractIntermediate s2))
        = Except.error e →
      (run_financial_analysis_chain ex).1 = none ∧ stagesInvoked ex = [1, 2, 3]) ∧
    (∀ ex : Executor, stagesInvoked ex = [1] ∨ stagesInvoked ex = [1, 2] ∨
      stagesInvoked ex = [1, 2, 3]) := by
  refine ⟨fun e => rfl, ?_, ?_, ?_, fun ex => (chain_trace_shape ex).1⟩
  · intro ex e he
    have h1 : run_gemini_stage ex.stage1 = none := by rw [he]; rfl
    have hfail := chain_stage1_fail ex (Or.inl h1)
    constructor
    · rw [hfail]
    · rw [stagesInvoked, hfail]
      rfl
  · intro ex s v e h1 h2 h3 he
    have ho2 : run_gemini_stage (ex.stage2 (formatStage2 (json_dumps_indent2 v))) = none := by
      rw [he]
      rfl
    have hu := chain_unfold_stage2 ex s v h1 h2 h3
    rw [stagesInvoked, hu]
    simp [ho2]
  · intro ex s s2 v e h1 h2 h3 h4 h5 he
    have ho3 : run_gemini_stage (ex.stage3 (stage3_full_prompt (json_dumps_indent2 v)
        (extractIntermediate s2))) = none := by
      rw [he]
      rfl
    have hu := chain_unfold_stage2 ex s v h1 h2 h3
    rw [stagesInvoked, hu]
    simp [h4, if_neg h5, ho3]

/-- Claim C6, witness at an executor whose Stage-2 call raises a quota error
and at an executor whose Stage-3 call raises a server error after Stages 1
and 2 succeed. -/
theorem claim_C6_witness :
    ((run_financial_analysis_chain ex_c6).1 = none ∧ stagesInvoked ex_c6 = [1, 2]) ∧
    ((run_financial_analysis_chain ex_c6b).1 = none ∧ stagesInvoked ex_c6b = [1, 2, 3]) :=
  ⟨claim_C6.2.2.1 ex_c6 "\x7b\x7d" (.obj []) "quota exceeded" rfl (by decide) rfl rfl,
   claim_C6.2.2.2.1 ex_c6b "\x7b\x7d" "reasoning" (.obj []) "server overloaded"
     rfl (by decide) rfl rfl (by decide) rfl⟩

/-- Claim C7, counterexample: the chain proceeds past Stage 1 with the empty
JSON object, an artifact carrying none of the 9 numeric and 3 narrative
fields, so field presence is not an invariant of artifacts that pass
Stage 1. -/
theorem claim_C7_counterexample :
    2 ∈ stagesInvoked ex_c7 ∧
    json_loads "\x7b\x7d" = some (.obj []) ∧
    hasRequiredFields (.obj []) = false := by
  refine ⟨by decide, rfl, rfl⟩

/-- Claim C7, amended: every artifact with which the chain proceeds past
Stage 1 is a syntactically valid, well-formed JSON value; no field-presence
invariant is enforced. -/
theorem claim_C7_amended (ex : Executor) (s : String)
    (h1 : run_gemini_stage ex.stage1 = some s) (h2 : s ≠ "")
    (h3 : 2 ∈ stagesInvoked ex) :
    ∃ v, json_loads s = some v ∧ WfJson v := by
  cases hl : json_loads s with
  | none =>
    have hfail := chain_stage1_fail ex (Or.inr (Or.inr ⟨s, h1, h2, hl⟩))
    rw [stagesInvoked, hfail] at h3
    simp at h3
  | some v => exact ⟨v, rfl, json_loads_sound s v hl⟩

/-- Claim C7, amended, witness at the empty-object run. -/
theorem claim_C7_amended_witness :
    ∃ v, json_loads "\x7b\x7d" = some v ∧ WfJson v :=
  claim_C7_amended ex_c7 "\x7b\x7d" rfl (by decide) (by decide)

/-- Claim C8: the Stage-3 prompt is a deterministic function of the Stage-1
canonical artifact and the Stage-2 extracted artifact alone, and it embeds
the two artifacts each under its labeled heading, separated by a blank line,
between a fixed prefix and suffix. -/
theorem claim_C8 :
    (∀ e1 i1 e2 i2 : String, e1 = e2 → i1 = i2 →
      stage3_full_prompt e1 i1 = stage3_full_prompt e2 i2) ∧
    (∃ pre post : String, ∀ e i : String,
      stage3_full_prompt e i
        = pre ++ "STAGE 1 DATA:\n" ++ e ++ "\n\n" ++ "STAGE 2 ANALYSIS:\n" ++ i ++ post) := by
  constructor
  · intro e1 i1 e2 i2 he hi
    rw [he, hi]
  · refine ⟨STAGE_3_PREFIX, STAGE_3_SUFFIX, fun e i => ?_⟩
    rw [stage3_full_prompt, formatStage3, full_analysis_of]
    rw [show ("\n\nSTAGE 2 ANALYSIS:\n" : String) = "\n\n" ++ "STAGE 2 ANALYSIS:\n" from rfl]
    simp [String.append_assoc]

/-- Claim C8, witness: the determinism component applied at concrete
artifacts, together with the embedding decomposition. -/
theorem claim_C8_witness :
    stage3_full_prompt "A" "B" = stage3_full_prompt "A" "B" ∧
    (∃ pre post : String, ∀ e i : String,
      stage3_full_prompt e i
        = pre ++ "STAGE 1 DATA:\n" ++ e ++ "\n\n" ++ "STAGE 2 ANALYSIS:\n" ++ i ++ post) :=
  ⟨claim_C8.1 "A" "B" "A" "B" rfl rfl, claim_C8.2⟩

/-- Claim C9: the declared media type is document mode exactly for the
reported content type application/pdf, and plain-text mode for every other
reported type. -/
theorem claim_C9 (t : String) :
    (mime_type t = "application/pdf" ↔ t = "application/pdf") ∧
    (t ≠ "application/pdf" → mime_type t = "text/plain") := by
  constructor
  · constructor
    · intro h
      by_cases ht : t = "application/pdf"
      · exact ht
      · rw [mime_type, if_neg ht] at h
        exact absurd h (by decide)
    · intro h
      rw [mime_type, if_pos h]
  · intro h
    rw [mime_type, if_neg h]

/-- Claim C9, witness at a markdown content type. -/
theorem claim_C9_witness : mime_type "text/markdown" = "text/plain" :=
  (claim_C9 "text/markdown").2 (by decide)

/-- Claim C10: any non-empty Stage-1 output that parses as valid JSON, be it
an empty object, an array, or an object with missing or wrong-typed fields,
passes Stage-1 validation: the chain invokes Stage 2 with the indented
re-serialisation of the parsed value embedded in the prompt.  Only JSON
well-formedness is checked, never field names or types. -/
theorem claim_C10 (ex : Executor) (s : String) (v : Json)
    (h1 : run_gemini_stage ex.stage1 = some s) (h2 : s ≠ "")
    (h3 : json_loads s = some v) :
    (2, formatStage2 (json_dumps_indent2 v)) ∈ (run_financial_analysis_chain ex).2 ∧
    2 ∈ stagesInvoked ex := by
  have hm := stage2_invoked ex s v h1 h2 h3
  refine ⟨hm, ?_⟩
  rw [stagesInvoked]
  exact List.mem_map_of_mem Prod.fst hm

/-- Claim C10, witness at a Stage-1 output that is a JSON array, a shape
with no fields at all. -/
theorem claim_C10_witness :
    (2, formatStage2 (json_dumps_indent2 (.arr [.num 1, .num 2])))
      ∈ (run_financial_analysis_chain ex_c10).2 ∧
    2 ∈ stagesInvoked ex_c10 :=
  claim_C10 ex_c10 "[1, 2]" (.arr [.num 1, .num 2]) rfl (by decide) rfl

end FinChain

